import Mathlib

/-!
Shallow embedding of the table post-processing engine
(`src/fileconverter/converters/table_postprocessor.py`) and the Markdown
quality scorer (`src/fileconverter/utils/quality_scorer.py`), together with
proofs about the specified behaviour.

Conventions of the embedding:
* Python `str` is modelled as Lean `String` (lists of characters); the
  character classes (`str.isalpha`, `\d`, `\s`, ...) are modelled over ASCII,
  which covers every input appearing in the development.
* Python `float` arithmetic is modelled with exact rationals (`ℚ`).
* Loops that are not structurally recursive are written with an explicit
  fuel argument whose initial value bounds the number of iterations, so that
  every definition is executable and kernel-reducible.
* The handful of regular expressions in the source are modelled by dedicated
  matching functions implementing exactly the commented pattern.
-/

/-! ### Python string primitives -/

/-- Python whitespace (`str.strip`, `str.split`, regex `\s`), ASCII range. -/
def pyIsSpaceChar (c : Char) : Bool :=
  c = ' ' || c = '\t' || c = '\n' || c = '\r' || c = '\x0b' || c = '\x0c'

/-- Python `str.strip()` on a character list. -/
def pyStripL (cs : List Char) : List Char :=
  ((cs.dropWhile pyIsSpaceChar).reverse.dropWhile pyIsSpaceChar).reverse

/-- Python `str.strip()`. -/
def pyStrip (s : String) : String := ⟨pyStripL s.data⟩

/-- The right-strip half of `pyStripL` (used to reason about stripping). -/
def rstripL (cs : List Char) : List Char :=
  (cs.reverse.dropWhile pyIsSpaceChar).reverse

/-- Python `str.split("\n")` on a character list: split at every newline,
keeping empty pieces. -/
def pyLinesL : List Char → List (List Char)
  | [] => [[]]
  | c :: rest =>
    if c = '\n' then [] :: pyLinesL rest
    else
      match pyLinesL rest with
      | [] => [[c]]
      | l :: ls => (c :: l) :: ls

/-- Python `markdown.split("\n")`. -/
def pySplitLines (s : String) : List String := (pyLinesL s.data).map (fun l => ⟨l⟩)

/-- Python `sep.join(pieces)` on character lists. -/
def joinWith (sep : List Char) : List (List Char) → List Char
  | [] => []
  | [l] => l
  | l :: ls => l ++ sep ++ joinWith sep ls

/-- Python `"\n".join(lines)`. -/
def pyJoinNl (xs : List String) : String := ⟨joinWith ['\n'] (xs.map String.data)⟩

/-- Helper for `pySplitWs`: accumulate the current (reversed) token. -/
def pySplitWsGo : List Char → List Char → List (List Char)
  | cur, [] => if cur.isEmpty then [] else [cur.reverse]
  | cur, c :: rest =>
    if pyIsSpaceChar c then
      if cur.isEmpty then pySplitWsGo [] rest else cur.reverse :: pySplitWsGo [] rest
    else pySplitWsGo (c :: cur) rest

/-- Python `str.split()` (no argument): split on whitespace runs, dropping
empty tokens. -/
def pySplitWs (s : String) : List String := (pySplitWsGo [] s.data).map (fun l => ⟨l⟩)

/-- Python `str.isalpha()` (ASCII letters). -/
def pyIsAlphaStr (s : String) : Bool :=
  !s.data.isEmpty && s.data.all Char.isAlpha

/-- Validity of the part of a Python integer literal after its first digit:
digits, with single underscores allowed between digits. -/
def pyIntTail : List Char → Bool
  | [] => true
  | c :: rest =>
    if c.isDigit then pyIntTail rest
    else if c = '_' then
      match rest with
      | d :: rest2 => d.isDigit && pyIntTail rest2
      | [] => false
    else false

/-- Numeric value of a digit string (underscores skipped). -/
def pyIntOfDigits (cs : List Char) : ℤ :=
  (cs.filter (fun c => c ≠ '_')).foldl (fun acc c => acc * 10 + ((c.toNat : ℤ) - 48)) 0

/-- Python `int(v)`: strip whitespace, optional sign, digits (with optional
underscore separators); `none` models a raised `ValueError`. -/
def pyInt (s : String) : Option ℤ :=
  let cs := pyStripL s.data
  let signAndDigits : ℤ × List Char :=
    match cs with
    | '+' :: rest => (1, rest)
    | '-' :: rest => (-1, rest)
    | _ => (1, cs)
  match signAndDigits.2 with
  | [] => none
  | c :: rest =>
    if c.isDigit && pyIntTail rest then some (signAndDigits.1 * pyIntOfDigits signAndDigits.2)
    else none

/-! ### Regex models -/

/-- `_GENERIC_HEADER_RE = ^Col\d+$` (IGNORECASE): `Col` followed by one or
more digits. -/
def _GENERIC_HEADER_RE (s : String) : Bool :=
  match s.data with
  | c1 :: c2 :: c3 :: rest =>
    c1.toLower = 'c' && c2.toLower = 'o' && c3.toLower = 'l' &&
      !rest.isEmpty && rest.all Char.isDigit
  | _ => false

/-- `_SEPARATOR_CELL_RE = ^:?-+:?$`: optional colon, one or more hyphens,
optional colon. -/
def _SEPARATOR_CELL_RE (s : String) : Bool :=
  let cs :=
    match s.data with
    | ':' :: rest => rest
    | other => other
  let dashes := cs.takeWhile (fun c => c = '-')
  let rest := cs.dropWhile (fun c => c = '-')
  decide (1 ≤ dashes.length) && (rest.isEmpty || rest == [':'])

/-- Matcher for one alternative of the format-hint pattern of the shape
`pre\s*post`: the input is `pre`, then any whitespace run, then `post`. -/
def matchesWordWsWord (cs pre post : List Char) : Bool :=
  pre.isPrefixOf cs &&
    (let rest := cs.drop pre.length
     decide (post.length ≤ rest.length) &&
       rest.drop (rest.length - post.length) == post &&
       (rest.take (rest.length - post.length)).all pyIsSpaceChar)

/-- `_FORMAT_HINT_RE` (IGNORECASE, anchored, optional surrounding whitespace):
`hh:mm | dd/mm | yyyy | mm/dd | n[./]a\.? | start\s*time | end\s*time |
-\s*end`. -/
def _FORMAT_HINT_RE (s : String) : Bool :=
  let cs := (pyStripL s.data).map Char.toLower
  cs == "hh:mm".data || cs == "dd/mm".data || cs == "yyyy".data || cs == "mm/dd".data ||
  cs == "n.a".data || cs == "n/a".data || cs == "n.a.".data || cs == "n/a.".data ||
  matchesWordWsWord cs "start".data "time".data ||
  matchesWordWsWord cs "end".data "time".data ||
  matchesWordWsWord cs "-".data "end".data

/-- If `cs` starts with a `<br\s*/?>` tag, return the remainder after it. -/
def matchBrAt : List Char → Option (List Char)
  | c1 :: c2 :: c3 :: rest =>
    if c1 = '<' ∧ c2 = 'b' ∧ c3 = 'r' then
      match rest.dropWhile pyIsSpaceChar with
      | '/' :: '>' :: rest3 => some rest3
      | '>' :: rest3 => some rest3
      | _ => none
    else none
  | _ => none

/-- Fuelled scan for `re.sub(r"<br\s*/?>", " ", text)`. -/
def replaceBrGo : Nat → List Char → List Char
  | 0, cs => cs
  | fuel + 1, cs =>
    match cs with
    | [] => []
    | c :: rest =>
      match matchBrAt cs with
      | some rest2 => ' ' :: replaceBrGo fuel rest2
      | none => c :: replaceBrGo fuel rest

/-- `re.sub(r"<br\s*/?>", " ", ·)` on a character list. -/
def replaceBrL (cs : List Char) : List Char := replaceBrGo cs.length cs

/-- Scan for `re.sub(r"\s+", " ", ·)`: collapse each whitespace run to one
space.  The flag records whether the previous character was whitespace. -/
def collapseWsGo : Bool → List Char → List Char
  | _, [] => []
  | prevWs, c :: rest =>
    if pyIsSpaceChar c then
      if prevWs then collapseWsGo true rest
      else ' ' :: collapseWsGo true rest
    else c :: collapseWsGo false rest

/-- `re.sub(r"\s+", " ", ·)` on a character list. -/
def collapseWsL (cs : List Char) : List Char := collapseWsGo false cs

/-- `_clean_br`: replace `<br>` tags by a space, collapse whitespace, strip. -/
def _clean_br (text : String) : String :=
  ⟨pyStripL (collapseWsL (replaceBrL text.data))⟩

/-- Shortest non-empty `.`-content followed by a doubled `marker` (the lazy
`(.+?)` of the bold/strikethrough patterns); returns the content and the
remainder after the closing pair.  `.` does not match a newline. -/
def findPairedClose (marker : Char) : List Char → Option (List Char × List Char)
  | [] => none
  | c :: rest =>
    if c = '\n' then none
    else
      match rest with
      | d :: e :: rest2 =>
        if d = marker && e = marker then some ([c], rest2)
        else
          match findPairedClose marker rest with
          | some (content, rem) => some (c :: content, rem)
          | none => none
      | _ =>
        match findPairedClose marker rest with
        | some (content, rem) => some (c :: content, rem)
        | none => none

/-- Fuelled scan for `re.sub(r"\*\*(.+?)\*\*", r"\1", ·)` (with `marker='*'`)
and `re.sub(r"~~(.+?)~~", r"\1", ·)` (with `marker='~'`). -/
def stripPairedGo (marker : Char) : Nat → List Char → List Char
  | 0, cs => cs
  | _ + 1, [] => []
  | fuel + 1, c :: rest =>
    if c = marker then
      match rest with
      | d :: rest2 =>
        if d = marker then
          match findPairedClose marker rest2 with
          | some (content, rem) => content ++ stripPairedGo marker fuel rem
          | none => c :: stripPairedGo marker fuel rest
        else c :: stripPairedGo marker fuel rest
      | [] => [c]
    else c :: stripPairedGo marker fuel rest

/-- `_strip_bold`: remove markdown bold markers. -/
def _strip_bold (text : String) : String :=
  ⟨stripPairedGo '*' text.data.length text.data⟩

/-- The strikethrough removal `re.sub(r"~~(.+?)~~", r"\1", ·)` used in
`_collect_unique_items`. -/
def stripStrike (text : String) : String :=
  ⟨stripPairedGo '~' text.data.length text.data⟩

/-! ### Table parsing (`table_postprocessor.py`) -/

/-- Thresholds from the source. -/
def MIN_COLUMNS_FOR_DEGENERATE : Nat := 10

/-- Duplication-ratio threshold (0.5). -/
def DUPLICATION_RATIO_THRESHOLD : ℚ := 1/2

/-- Generic-header-ratio threshold (0.5). -/
def GENERIC_HEADER_RATIO_THRESHOLD : ℚ := 1/2

/-- Redundant-row-ratio threshold (0.7). -/
def REDUNDANT_ROW_RATIO_THRESHOLD : ℚ := 7/10

/-- A parsed markdown table. -/
structure ParsedTable where
  header_cells : List String
  data_rows : List (List String)
  start_line : Nat
  end_line : Nat
deriving DecidableEq, Repr

/-- Cell scanner of `_split_row`: split at unescaped `|`, keeping `\|` as a
two-character unit; every produced cell is stripped. -/
def splitCellsGo : List Char → List Char → List String
  | [], cur => [⟨pyStripL cur⟩]
  | [c], cur =>
    if c = '|' then [⟨pyStripL cur⟩, ⟨pyStripL []⟩]
    else [⟨pyStripL (cur ++ [c])⟩]
  | c :: d :: rest, cur =>
    if c = '\\' ∧ d = '|' then splitCellsGo rest (cur ++ ['\\', '|'])
    else if c = '|' then (⟨pyStripL cur⟩ : String) :: splitCellsGo (d :: rest) []
    else splitCellsGo (d :: rest) (cur ++ [c])

/-- `_split_row`: strip the line, remove one leading and one trailing pipe,
then split into cells respecting escaped pipes. -/
def _split_row (line : String) : List String :=
  let stripped := pyStripL line.data
  let stripped :=
    match stripped with
    | '|' :: rest => rest
    | other => other
  let stripped :=
    if stripped.getLast? = some '|' then stripped.dropLast else stripped
  splitCellsGo stripped []

/-- `_is_separator_line`. -/
def _is_separator_line (line : String) : Bool :=
  let stripped := pyStrip line
  if stripped.data.isEmpty then false
  else
    let cells := _split_row stripped
    if cells.length < 1 then false
    else cells.all (fun c => if pyStrip c = "" then true else _SEPARATOR_CELL_RE (pyStrip c))

/-- `_is_table_row`: stripped line starts and ends with `|` and has
length > 1. -/
def _is_table_row (line : String) : Bool :=
  let s := pyStripL line.data
  (s.head? = some '|') && (s.getLast? = some '|') && decide (1 < s.length)

/-- Fuelled version of the data-row collection loop of `find_tables`
(`while j < len(lines) and _is_table_row(lines[j]) and not
_is_separator_line(lines[j]): j += 1`). -/
def _data_end_go (lines : List String) : Nat → Nat → Nat
  | 0, j => j
  | fuel + 1, j =>
    if j < lines.length ∧ _is_table_row (lines.getD j "") ∧
        _is_separator_line (lines.getD j "") = false then
      _data_end_go lines fuel (j + 1)
    else j

/-- First line index at or after `j` that stops the data-row collection. -/
def _data_end (lines : List String) (j : Nat) : Nat :=
  _data_end_go lines (lines.length - j) j

/-- Fuelled scan of `find_tables` over line indices; `used` is the set of
line indices already consumed into a table. -/
def find_tables_aux (lines : List String) : Nat → Nat → List Nat → List ParsedTable
  | 0, _, _ => []
  | fuel + 1, i, used =>
    if i < lines.length then
      if i ∈ used then find_tables_aux lines fuel (i + 1) used
      else if _is_separator_line (lines.getD i "") = false then
        find_tables_aux lines fuel (i + 1) used
      else if i = 0 then find_tables_aux lines fuel (i + 1) used
      else if _is_table_row (lines.getD (i - 1) "") = false then
        find_tables_aux lines fuel (i + 1) used
      else
        let header_cells := _split_row (lines.getD (i - 1) "")
        let sep_cells := _split_row (lines.getD i "")
        if 1 < ((header_cells.length : ℤ) - (sep_cells.length : ℤ)).natAbs then
          find_tables_aux lines fuel (i + 1) used
        else
          let j := _data_end lines (i + 1)
          let data_rows :=
            (List.range (j - (i + 1))).map (fun k => _split_row (lines.getD (i + 1 + k) ""))
          let start := i - 1
          let last := j - 1
          { header_cells := header_cells, data_rows := data_rows,
            start_line := start, end_line := last } ::
            find_tables_aux lines fuel (i + 1)
              (used ++ (List.range (last + 1 - start)).map (fun k => start + k))
    else []

/-- `find_tables`: find and parse all markdown tables. -/
def find_tables (markdown : String) : List ParsedTable :=
  let lines := pySplitLines markdown
  find_tables_aux lines lines.length 0 []

/-- Number of lines of the document (as produced by `split("\n")`). -/
def line_count (markdown : String) : Nat := (pySplitLines markdown).length

/-! ### Table analysis -/

/-- The distinct values of a list in first-seen order (contents of a Python
`set` built from the list; only cardinality and the singleton element are
ever used). -/
def pyUniqueList (l : List String) : List String :=
  l.foldl (fun acc x => if x ∈ acc then acc else acc ++ [x]) []

/-- `_row_duplication_ratio`: fraction of non-empty cells that duplicate
another cell of the row. -/
def _row_duplication_ratio (cells : List String) : ℚ :=
  let non_empty := cells.filter (fun c => pyStrip c ≠ "")
  if non_empty.isEmpty then 0
  else 1 - ((pyUniqueList non_empty).length : ℚ) / (non_empty.length : ℚ)

/-- `_generic_header_ratio`: fraction of non-empty headers matching `ColN`. -/
def _generic_header_ratio (headers : List String) : ℚ :=
  let non_empty := headers.filter (fun h => pyStrip h ≠ "")
  if non_empty.isEmpty then 0
  else ((non_empty.countP (fun h => _GENERIC_HEADER_RE (pyStrip h))) : ℚ) / (non_empty.length : ℚ)

/-- Average intra-row duplication ratio (0 when there are no data rows). -/
def avg_duplication (table : ParsedTable) : ℚ :=
  if table.data_rows.isEmpty then 0
  else ((table.data_rows.map _row_duplication_ratio).sum) / (table.data_rows.length : ℚ)

/-- `is_degenerate`: wide table with high duplication or mostly generic
headers. -/
def is_degenerate (table : ParsedTable) : Bool :=
  let col_count := table.header_cells.length
  if col_count < MIN_COLUMNS_FOR_DEGENERATE then false
  else
    let gh_ratio := _generic_header_ratio table.header_cells
    decide (DUPLICATION_RATIO_THRESHOLD ≤ avg_duplication table ∨
      GENERIC_HEADER_RATIO_THRESHOLD ≤ gh_ratio)

/-! ### Degenerate table restructuring -/

/-- `_collect_unique_items`: unique non-empty cleaned cell contents, with
generic `ColN` placeholders filtered out. -/
def _collect_unique_items (cells : List String) : List String :=
  cells.foldl
    (fun items cell =>
      if pyStrip cell = "" then items
      else
        let cleaned := stripStrike (pyStrip (_strip_bold (_clean_br cell)))
        if cleaned = "" then items
        else if _GENERIC_HEADER_RE cleaned then items
        else if cleaned ∈ items then items
        else items ++ [cleaned])
    []

/-- Python truthiness of the `title : str | None` local of
`restructure_degenerate`. -/
def pyTruthyOptStr : Option String → Bool
  | none => false
  | some s => s ≠ ""

/-- Append `items` into the entry of `role` (inserting the role at the end on
first sight), deduplicating against the items already present. -/
def roleItemsAdd (assoc : List (String × List String)) (role : String)
    (items : List String) : List (String × List String) :=
  let addUnique : List String → List String :=
    fun existing => items.foldl (fun l item => if item ∈ l then l else l ++ [item]) existing
  if (assoc.map Prod.fst).contains role then
    assoc.map (fun p => if p.1 = role then (p.1, addUnique p.2) else p)
  else assoc ++ [(role, addUnique [])]

/-- Processing of one data row inside `restructure_degenerate`'s main loop. -/
def restructRowStep (titleTruthy : Bool) (assoc : List (String × List String))
    (row : List String) : List (String × List String) :=
  if row.isEmpty then assoc
  else
    let role_col := if titleTruthy ∧ 1 < row.length then 1 else 0
    let role :=
      if role_col < row.length then pyStrip (_strip_bold (_clean_br (row.getD role_col "")))
      else ""
    let content_cells := if role_col + 1 < row.length then row.drop (role_col + 1) else []
    let content_items := _collect_unique_items content_cells
    if role ≠ "" then roleItemsAdd assoc role content_items else assoc

/-- The repeated-title detection of `restructure_degenerate`: the set of
distinct cleaned column-0 values across data rows; a title exists when it is
a singleton. -/
def restructTitle (table : ParsedTable) : Option String :=
  let col0_values :=
    pyUniqueList
      ((table.data_rows.filter
          (fun r => ¬ r.isEmpty ∧ pyStrip (r.headI) ≠ "")).map
        (fun r => pyStrip (_strip_bold (_clean_br (r.headI)))))
  if col0_values.length = 1 then some col0_values.headI else none

/-- The role entry seeded from the header row of `restructure_degenerate`
(a non-generic label in header column 1 with content in the remaining
header cells). -/
def restructSeed (table : ParsedTable) : List (String × List String) :=
  if 1 < table.header_cells.length then
    let role_header := pyStrip (_strip_bold (_clean_br (table.header_cells.getD 1 "")))
    if role_header ≠ "" ∧ _GENERIC_HEADER_RE role_header = false then
      let content_items := _collect_unique_items (table.header_cells.drop 2)
      if ¬ content_items.isEmpty then [(role_header, content_items)] else []
    else []
  else []

/-- The role → items mapping (in first-seen order) accumulated by
`restructure_degenerate`. -/
def restructAssoc (table : ParsedTable) : List (String × List String) :=
  table.data_rows.foldl
    (restructRowStep (pyTruthyOptStr (restructTitle table)))
    (restructSeed table)

/-- `_merge_nonadjacent_alpha_fragments`'s while loop (the splice
`result[i:i+3] = [a+b, mid]` advances `i` by 2). -/
def mergeNAGo (frag_len : Nat) : Nat → List String → Nat → List String
  | 0, result, _ => result
  | fuel + 1, result, i =>
    if i < result.length - 2 then
      let a := result.getD i ""
      if frag_len < a.length ∨ pyIsAlphaStr a = false then mergeNAGo frag_len fuel result (i + 1)
      else
        let mid := result.getD (i + 1) ""
        let b := result.getD (i + 2) ""
        if b.length ≤ frag_len ∧ pyIsAlphaStr b ∧ frag_len < mid.length then
          mergeNAGo frag_len fuel (result.take i ++ [a ++ b, mid] ++ result.drop (i + 3)) (i + 2)
        else mergeNAGo frag_len fuel result (i + 1)
    else result

/-- `_merge_nonadjacent_alpha_fragments`. -/
def _merge_nonadjacent_alpha_fragments (items : List String) (frag_len : Nat) : List String :=
  if items.length < 3 then items else mergeNAGo frag_len items.length items 0

/-- Second pass of `_merge_short_fragments`: merge adjacent short fragments;
`acc` is the reversed output built so far. -/
def mergeAdjGo (frag_len : Nat) : List String → List String → List String
  | acc, [] => acc.reverse
  | acc, item :: rest =>
    if item.length ≤ frag_len then
      match rest with
      | next :: rest2 =>
        if next.length ≤ frag_len then mergeAdjGo frag_len ((item ++ next) :: acc) rest2
        else mergeAdjGo frag_len ((item ++ " " ++ next) :: acc) rest2
      | [] =>
        match acc with
        | prev :: acc2 => ((prev ++ " " ++ item) :: acc2).reverse
        | [] => (item :: acc).reverse
    else mergeAdjGo frag_len (item :: acc) rest

/-- `_merge_short_fragments`: non-adjacent alpha merge pass, then adjacent
merge pass (fragment threshold 4). -/
def _merge_short_fragments (items : List String) : List String :=
  if items.length ≤ 1 then items
  else
    let frag_len := 4
    mergeAdjGo frag_len [] (_merge_nonadjacent_alpha_fragments items frag_len)

/-- `restructure_degenerate`: convert a degenerate table into a structured
markdown list. -/
def restructure_degenerate (table : ParsedTable) : String :=
  let title := restructTitle table
  let titleLines : List String :=
    if pyTruthyOptStr title then ["## " ++ title.getD "", ""] else []
  let body :=
    (restructAssoc table).foldl
      (fun ls p =>
        ls ++ ["### " ++ p.1, ""] ++
          (_merge_short_fragments p.2).map (fun item => "- " ++ item) ++ [""])
      []
  pyJoinNl (titleLines ++ body)

/-! ### Normal table cleaning -/

/-- Python substring containment `a in b`. -/
def strContains (b a : String) : Bool :=
  (List.range (b.data.length + 1)).any (fun i => a.data.isPrefixOf (b.data.drop i))

/-- The per-cell test of `_is_redundant_subheader`: cell `i` of `row` counts
as a match when it is empty, a format hint, or a substring of (or contains)
the corresponding header cell. -/
def redundantCellMatch (header row : List String) (i : Nat) : Bool :=
  let cleaned := pyStrip (_clean_br (row.getD i ""))
  if cleaned = "" then true
  else if _FORMAT_HINT_RE cleaned then true
  else if i < header.length then
    let header_clean := pyStrip (_clean_br (header.getD i ""))
    header_clean ≠ "" ∧
      (strContains header_clean cleaned ∨ strContains cleaned header_clean)
  else false

/-- `_is_redundant_subheader`: fraction of cells that are empty, format
hints, or substring-related to the matching header cell is at least 0.7. -/
def _is_redundant_subheader (row : List String) (header : List String) : Bool :=
  if row.isEmpty then false
  else
    let matchCount := (List.range row.length).countP (redundantCellMatch header row)
    let total := max row.length 1
    decide (REDUNDANT_ROW_RATIO_THRESHOLD ≤ (matchCount : ℚ) / (total : ℚ))

/-- `_infer_column_name`: rename a generic column to `"Day"` when its values
are consecutive integers. -/
def _infer_column_name (col_index : Nat) (data_rows : List (List String)) : Option String :=
  let values :=
    (data_rows.filter (fun row => col_index < row.length)).map
      (fun row => pyStrip (_clean_br (row.getD col_index "")))
  let values := values.filter (fun v => v ≠ "")
  if values.isEmpty then none
  else
    let ints := values.map pyInt
    if ints.all Option.isSome then
      let ints := ints.map (fun o => o.getD 0)
      if ints = (List.range ints.length).map (fun k => ints.headI + (k : ℤ)) then some "Day"
      else none
    else none

/-- First stage of `clean_table` on the header: clean every header cell,
then rename generic `ColN` headers whose column values are consecutive
integers. -/
def clean_header_cells (table : ParsedTable) : List String :=
  let header := table.header_cells.map _clean_br
  (List.range header.length).map (fun i =>
    let h := header.getD i ""
    if _GENERIC_HEADER_RE (pyStrip h) then
      match _infer_column_name i table.data_rows with
      | some inferred => if inferred = "" then h else inferred
      | none => h
    else h)

/-- First stages of `clean_table` on the rows: clean every cell, then drop
the first data row when it is a redundant sub-header. -/
def clean_rows_after_subheader (table : ParsedTable) : List (List String) :=
  let rows := table.data_rows.map (fun row => row.map _clean_br)
  if ¬ rows.isEmpty ∧ _is_redundant_subheader (rows.headI) (clean_header_cells table) then
    rows.tail
  else rows

/-- Column indices retained by `clean_table` (a column is dropped when all
its data cells are empty and its header is still generic). -/
def clean_keep_cols (table : ParsedTable) : List Nat :=
  let header := clean_header_cells table
  let rows := clean_rows_after_subheader table
  (List.range header.length).filter (fun ci =>
    let is_empty := rows.all (fun r => r.length ≤ ci ∨ pyStrip (r.getD ci "") = "")
    let is_generic :=
      if ci < header.length then _GENERIC_HEADER_RE (pyStrip (header.getD ci "")) else false
    ¬ (is_empty ∧ is_generic))

/-- The header/data rows computed by `clean_table` before reassembly. -/
def clean_table_header_rows (table : ParsedTable) : List String × List (List String) :=
  let header := clean_header_cells table
  let rows := clean_rows_after_subheader table
  let col_count := header.length
  let keep_cols := clean_keep_cols table
  if ¬ keep_cols.isEmpty ∧ keep_cols.length < col_count then
    ((keep_cols.filter (fun ci => ci < header.length)).map (fun ci => header.getD ci ""),
      rows.map (fun r => keep_cols.map (fun ci => if ci < r.length then r.getD ci "" else "")))
  else (header, rows)

/-- Pad rows to the column count, truncating longer rows
(the normalisation step of `_rebuild_table`). -/
def normaliseRows (col_count : Nat) (rows : List (List String)) : List (List String) :=
  rows.map (fun r =>
    if r.length < col_count then r ++ List.replicate (col_count - r.length) ""
    else r.take col_count)

/-- Column widths of `_rebuild_table`: start from `max 3 (len header)` and
take the maximum with every (normalised) cell length. -/
def rebuildWidths (header : List String) (normalised_rows : List (List String)) : List Nat :=
  normalised_rows.foldl
    (fun ws r => List.zipWith (fun w (cell : String) => max w cell.length) ws r)
    (header.map (fun h => max 3 h.length))

/-- One formatted cell of `_rebuild_table` (`f" {cell:<{w}} "`): leading
space, the cell, right-padding to width `w`, trailing space. -/
def _fmt_cell (w : Nat) (cell : String) : List Char :=
  ' ' :: (cell.data ++ List.replicate (w - cell.length) ' ' ++ [' '])

/-- One formatted row of `_rebuild_table`: the formatted cells joined with
`|` and wrapped in outer pipes. -/
def _fmt_row (widths : List Nat) (cells : List String) : String :=
  ⟨'|' :: (joinWith ['|']
      ((List.range cells.length).map (fun ci =>
        let w := if ci < widths.length then widths.getD ci 0 else 3
        _fmt_cell w (cells.getD ci ""))) ++ ['|'])⟩

/-- The separator line of `_rebuild_table`: `w + 2` hyphens per column. -/
def rebuildSep (widths : List Nat) : String :=
  ⟨'|' :: (joinWith ['|'] (widths.map (fun w => List.replicate (w + 2) '-')) ++ ['|'])⟩

/-- `_rebuild_table`: reassemble a markdown table string. -/
def _rebuild_table (header : List String) (rows : List (List String)) : String :=
  if header.isEmpty then ""
  else
    let col_count := header.length
    let normalised_rows := normaliseRows col_count rows
    let widths := rebuildWidths header normalised_rows
    pyJoinNl
      ([_fmt_row widths header, rebuildSep widths] ++ normalised_rows.map (_fmt_row widths))

/-- `clean_table`: clean a normal table and return formatted markdown. -/
def clean_table (table : ParsedTable) : String :=
  let hr := clean_table_header_rows table
  _rebuild_table hr.1 hr.2

/-! ### Driver -/

/-- `postprocess_tables`: replace every detected table (in reverse order)
with its cleaned or restructured form. -/
def postprocess_tables (markdown : String) : String :=
  let tables := find_tables markdown
  if tables.isEmpty then markdown
  else
    let lines := pySplitLines markdown
    let lines :=
      tables.reverse.foldl
        (fun ls (table : ParsedTable) =>
          let replacement :=
            if is_degenerate table then restructure_degenerate table else clean_table table
          ls.take table.start_line ++ pySplitLines replacement ++ ls.drop (table.end_line + 1))
        lines
    pyJoinNl lines

/-! ### Quality scorer (`quality_scorer.py`) -/

/-- Tokens that are never counted as garbled. -/
def markdownSyntaxTokens : List String :=
  ["#", "##", "###", "####", "#####", "######", "-", "*", ">", "---", "***", "|", "```"]

/-- Three consecutive non-ASCII characters (`[^\x00-\x7f]{3,}`). -/
def hasNonAsciiRun3 : List Char → Bool
  | a :: b :: c :: rest =>
    (decide (127 < a.toNat) && decide (127 < b.toNat) && decide (127 < c.toNat)) ||
      hasNonAsciiRun3 (b :: c :: rest)
  | _ => false

/-- Garbled-token test of `_garbled_ratio`. -/
def isGarbledToken (t : String) : Bool :=
  if t ∈ markdownSyntaxTokens then false
  else
    let alpha_count := t.data.countP Char.isAlphanum
    if 3 ≤ t.length ∧ (alpha_count : ℚ) < (t.length : ℚ) * (2/5) then true
    else if hasNonAsciiRun3 t.data then
      hasNonAsciiRun3 (t.data.filter (fun c => !(0xc0 ≤ c.toNat && c.toNat ≤ 0x24f)))
    else false

/-- `_word_density`: ratio of alphabetic tokens of length ≥ 2. -/
def _word_density (markdown : String) : ℚ :=
  let tokens := pySplitWs markdown
  if tokens.isEmpty then 0
  else ((tokens.countP (fun t => pyIsAlphaStr t && decide (2 ≤ t.length))) : ℚ) / (tokens.length : ℚ)

/-- `_garbled_ratio`: 1 − 1.5 × garbled fraction, floored at 0. -/
def _garbled_ratio (markdown : String) : ℚ :=
  let tokens := pySplitWs markdown
  if tokens.isEmpty then 0
  else
    let garbled := tokens.countP isGarbledToken
    max 0 (1 - (garbled : ℚ) / (tokens.length : ℚ) * (3/2))

/-- `_content_length_score`: step function of the stripped length. -/
def _content_length_score (markdown : String) : ℚ :=
  let length := (pyStrip markdown).length
  if length = 0 then 0
  else if length < 20 then 1/10
  else if length < 50 then 3/10
  else if length < 100 then 1/2
  else if length < 200 then 7/10
  else if length < 500 then 17/20
  else 1

/-- `_whitespace_score`: step function of the blank-line fraction. -/
def _whitespace_score (markdown : String) : ℚ :=
  let lines := pySplitLines markdown
  if lines.isEmpty then 0
  else
    let blank_count := lines.countP (fun line => pyStrip line = "")
    let blank_ratio := (blank_count : ℚ) / (lines.length : ℚ)
    if blank_ratio ≤ 3/10 then 1
    else if blank_ratio ≤ 1/2 then 4/5
    else if blank_ratio ≤ 7/10 then 1/2
    else 1/5

/-- Heading indicator `^#{1,6}\s+\S` (MULTILINE): try at every line start. -/
def hasHeadingGo : Bool → List Char → Bool
  | _, [] => false
  | atStart, c :: rest =>
    (atStart &&
      (let hashes := (c :: rest).takeWhile (fun x => x = '#')
       let tail := (c :: rest).dropWhile (fun x => x = '#')
       decide (1 ≤ hashes.length) && decide (hashes.length ≤ 6) &&
         (match tail with
          | d :: _ => pyIsSpaceChar d && !(tail.dropWhile pyIsSpaceChar).isEmpty
          | [] => false))) ||
    hasHeadingGo (c = '\n') rest

/-- `\s+\S` at the start of the remainder. -/
def wsThenNonWs : List Char → Bool
  | c :: rest => pyIsSpaceChar c && !((c :: rest).dropWhile pyIsSpaceChar).isEmpty
  | [] => false

/-- Bullet-list indicator `^[\s]*[-*+]\s+\S` (MULTILINE).  The flag records
whether only whitespace separates the position from some line start. -/
def hasBulletGo : Bool → List Char → Bool
  | _, [] => false
  | wsRun, c :: rest =>
    (wsRun && (c = '-' || c = '*' || c = '+') && wsThenNonWs rest) ||
    hasBulletGo (c = '\n' || (wsRun && pyIsSpaceChar c)) rest

/-- Numbered-list indicator `^[\s]*\d+\.\s+\S` (MULTILINE). -/
def hasNumberedGo : Bool → List Char → Bool
  | _, [] => false
  | wsRun, c :: rest =>
    (wsRun && c.isDigit &&
      (match rest.dropWhile Char.isDigit with
       | '.' :: rest3 => wsThenNonWs rest3
       | _ => false)) ||
    hasNumberedGo (c = '\n' || (wsRun && pyIsSpaceChar c)) rest

/-- First `"\n\n"` occurrence; returns the suffix after it. -/
def findDoubleNl : List Char → Option (List Char)
  | c :: d :: rest => if c = '\n' ∧ d = '\n' then some rest else findDoubleNl (d :: rest)
  | _ => none

/-- Number of matches of `re.findall(r'\S[\s\S]*?\n\n', markdown)`: from each
non-space character, the lazy match ends at the first following `"\n\n"`. -/
def countParasGo : Nat → List Char → Nat
  | 0, _ => 0
  | _ + 1, [] => 0
  | fuel + 1, c :: rest =>
    if pyIsSpaceChar c then countParasGo fuel rest
    else
      match findDoubleNl rest with
      | some suffix => 1 + countParasGo fuel suffix
      | none => 0

/-- `_structure_score`: count structural indicators. -/
def _structure_score (markdown : String) : ℚ :=
  let i1 := hasHeadingGo true markdown.data
  let i2 := hasBulletGo true markdown.data
  let i3 := hasNumberedGo true markdown.data
  let i4 := (pySplitLines markdown).any (fun l => 2 ≤ l.data.count '|')
  let i5 := decide (2 ≤ countParasGo markdown.data.length markdown.data)
  let indicators_found :=
    (if i1 then 1 else 0) + (if i2 then 1 else 0) + (if i3 then 1 else 0) +
    (if i4 then 1 else 0) + (if i5 then 1 else 0)
  if indicators_found = 0 then
    if 3 ≤ ((pySplitLines markdown).filter (fun l => pyStrip l ≠ "")).length then 2/5 else 1/5
  else if indicators_found = 1 then 3/5
  else if indicators_found = 2 then 4/5
  else 1

/-- `score_quality`: weighted sum of the five sub-scores; 0 on empty or
whitespace-only input. -/
def score_quality (markdown : String) : ℚ :=
  if markdown = "" ∨ pyStrip markdown = "" then 0
  else
    _word_density markdown * (1/4) + _garbled_ratio markdown * (1/4) +
    _content_length_score markdown * (1/5) + _whitespace_score markdown * (3/20) +
    _structure_score markdown * (3/20)

/-- The header row `Title, Role, Col3, ..., Col14` of end-to-end scenario 2. -/
def scenario2Header : List String :=
  ["Title", "Role", "Col3", "Col4", "Col5", "Col6", "Col7", "Col8", "Col9",
   "Col10", "Col11", "Col12", "Col13", "Col14"]

/-- Claim-side column width: the maximum content width of a column over the
(cleaned, normalised) header and data cells, with a minimum of 3. -/
def colWidthSpec (header : List String) (rows : List (List String)) (ci : Nat) : Nat :=
  max (max 3 (header.getD ci "").length)
    ((rows.map (fun r => (r.getD ci "").length)).foldr max 0)

/-- Claim-side separator row: for each column, `-` repeated to the column
width plus two. -/
def sepRowSpec (header : List String) (rows : List (List String)) : String :=
  ⟨'|' :: (joinWith ['|']
      ((List.range header.length).map (fun ci =>
        List.replicate (colWidthSpec header rows ci + 2) '-')) ++ ['|'])⟩

/-- Claim-side padded cell: one leading space, the cell right-padded to the
column width with spaces, one trailing space. -/
def paddedCellSpec (w : Nat) (cell : String) : List Char :=
  ' ' :: (cell.data ++ List.replicate (w - cell.length) ' ' ++ [' '])

/-- Claim-side formatted row over the claim-side widths. -/
def rowSpec (header : List String) (rows : List (List String)) (cells : List String) : String :=
  ⟨'|' :: (joinWith ['|']
      ((List.range cells.length).map (fun ci =>
        paddedCellSpec (colWidthSpec header rows ci) (cells.getD ci ""))) ++ ['|'])⟩

/-! ### Lemmas about the quality scorer -/

theorem pyLinesL_ne_nil (cs : List Char) : pyLinesL cs ≠ [] := by
  induction cs with
  | nil => simp [pyLinesL]
  | cons c rest ih =>
    unfold pyLinesL
    split
    · simp
    · cases h : pyLinesL rest <;> simp

theorem pySplitLines_ne_nil (s : String) : pySplitLines s ≠ [] := by
  unfold pySplitLines
  simp [pyLinesL_ne_nil]

theorem _word_density_nonneg (s : String) : 0 ≤ _word_density s := by
  unfold _word_density
  dsimp only
  split
  · norm_num
  · positivity

theorem _word_density_le_one (s : String) : _word_density s ≤ 1 := by
  unfold _word_density
  dsimp only
  split
  · norm_num
  · rename_i h
    have hne : pySplitWs s ≠ [] := by simpa [List.isEmpty_iff] using h
    have hlen : (0 : ℚ) < ((pySplitWs s).length : ℚ) := by
      exact_mod_cast List.length_pos.mpr hne
    rw [div_le_one hlen]
    exact_mod_cast List.countP_le_length _

theorem _garbled_ratio_nonneg (s : String) : 0 ≤ _garbled_ratio s := by
  unfold _garbled_ratio
  dsimp only
  split
  · norm_num
  · exact le_max_left 0 _

theorem _garbled_ratio_le_one (s : String) : _garbled_ratio s ≤ 1 := by
  unfold _garbled_ratio
  dsimp only
  split
  · norm_num
  · apply max_le (by norm_num)
    have h1 : (0 : ℚ) ≤ ((pySplitWs s).countP isGarbledToken : ℚ) / ((pySplitWs s).length : ℚ) * (3/2) := by
      positivity
    linarith

theorem _content_length_score_nonneg (s : String) : 0 ≤ _content_length_score s := by
  unfold _content_length_score
  dsimp only
  split_ifs <;> norm_num

theorem _content_length_score_le_one (s : String) : _content_length_score s ≤ 1 := by
  unfold _content_length_score
  dsimp only
  split_ifs <;> norm_num

theorem _content_length_score_pos (s : String) (h : pyStrip s ≠ "") :
    1/10 ≤ _content_length_score s := by
  have hlen : (pyStrip s).length ≠ 0 := by
    intro h0
    exact h (by ext1; exact List.length_eq_zero.mp h0)
  unfold _content_length_score
  dsimp only
  split_ifs <;> first | (exact absurd (by assumption) hlen) | norm_num

theorem _whitespace_score_nonneg (s : String) : 0 ≤ _whitespace_score s := by
  unfold _whitespace_score
  dsimp only
  split_ifs <;> norm_num

theorem _whitespace_score_le_one (s : String) : _whitespace_score s ≤ 1 := by
  unfold _whitespace_score
  dsimp only
  split_ifs <;> norm_num

theorem _whitespace_score_pos (s : String) : 1/5 ≤ _whitespace_score s := by
  unfold _whitespace_score
  dsimp only
  split_ifs with h1
  · exact absurd (List.isEmpty_iff.mp h1) (pySplitLines_ne_nil s)
  all_goals norm_num

theorem _structure_score_nonneg (s : String) : 0 ≤ _structure_score s := by
  unfold _structure_score
  dsimp only
  split_ifs <;> norm_num

theorem _structure_score_le_one (s : String) : _structure_score s ≤ 1 := by
  unfold _structure_score
  dsimp only
  split_ifs <;> norm_num

theorem _structure_score_pos (s : String) : 1/5 ≤ _structure_score s := by
  unfold _structure_score
  dsimp only
  split_ifs <;> norm_num

theorem score_quality_of_strip_empty (s : String) (h : pyStrip s = "") :
    score_quality s = 0 := by
  unfold score_quality
  simp [h]

theorem score_quality_of_strip_ne (s : String) (h : pyStrip s ≠ "") :
    2/25 ≤ score_quality s := by
  have hs : s ≠ "" := by
    intro he
    exact h (by rw [he]; rfl)
  have h1 := _word_density_nonneg s
  have h2 := _garbled_ratio_nonneg s
  have h3 := _content_length_score_pos s h
  have h4 := _whitespace_score_pos s
  have h5 := _structure_score_pos s
  unfold score_quality
  split_ifs with hif
  · rcases hif with hif | hif
    · exact absurd hif hs
    · exact absurd hif h
  · linarith

/-- C7: `score_quality` always returns a value in the closed interval
[0, 1], and on empty or whitespace-only input (equivalently, input whose
`strip()` is empty) it returns exactly 0. -/
theorem score_quality_range_and_empty (s : String) :
    (0 ≤ score_quality s ∧ score_quality s ≤ 1) ∧
      (pyStrip s = "" → score_quality s = 0) := by
  refine ⟨?_, score_quality_of_strip_empty s⟩
  have h1 := _word_density_nonneg s
  have h1' := _word_density_le_one s
  have h2 := _garbled_ratio_nonneg s
  have h2' := _garbled_ratio_le_one s
  have h3 := _content_length_score_nonneg s
  have h3' := _content_length_score_le_one s
  have h4 := _whitespace_score_nonneg s
  have h4' := _whitespace_score_le_one s
  have h5 := _structure_score_nonneg s
  have h5' := _structure_score_le_one s
  unfold score_quality
  split_ifs with hif
  · norm_num
  · constructor <;> linarith

/-- C7 witness: a whitespace-only input scores exactly 0 (and lies in
[0, 1]). -/
theorem score_quality_range_and_empty_witness :
    pyStrip " \t " = "" ∧ score_quality " \t " = 0 :=
  ⟨by decide, (score_quality_range_and_empty " \t ").2 (by decide)⟩

/-- C10: `score_quality` returns 0 exactly on empty/whitespace-only input;
any input with a non-whitespace character scores at least 0.08 = 2/25. -/
theorem score_quality_zero_iff (s : String) :
    (score_quality s = 0 ↔ pyStrip s = "") ∧
      (pyStrip s ≠ "" → 2/25 ≤ score_quality s) := by
  refine ⟨⟨?_, score_quality_of_strip_empty s⟩, score_quality_of_strip_ne s⟩
  intro h0
  by_contra hne
  have := score_quality_of_strip_ne s hne
  rw [h0] at this
  linarith

/-- C10 witness: a one-character input scores at least 2/25. -/
theorem score_quality_zero_iff_witness :
    pyStrip "x" ≠ "" ∧ 2/25 ≤ score_quality "x" :=
  ⟨by decide, (score_quality_zero_iff "x").2 (by decide)⟩

/-! ### Classifier boundary (C4) -/

/-- C4: a table with fewer than 10 header cells is never degenerate, and a
table with exactly 10 header cells whose average row-duplication ratio is
exactly 0.5 is degenerate (inclusive threshold). -/
theorem is_degenerate_boundary :
    (∀ t : ParsedTable, t.header_cells.length < 10 → is_degenerate t = false) ∧
    (∀ t : ParsedTable, t.header_cells.length = 10 → avg_duplication t = 1/2 →
      is_degenerate t = true) := by
  constructor
  · intro t h
    unfold is_degenerate MIN_COLUMNS_FOR_DEGENERATE
    dsimp only
    rw [if_pos h]
  · intro t h10 havg
    unfold is_degenerate MIN_COLUMNS_FOR_DEGENERATE DUPLICATION_RATIO_THRESHOLD
    dsimp only
    rw [if_neg (by omega), havg]
    exact decide_eq_true (Or.inl le_rfl)

theorem row_dup_ratio_ABAB : _row_duplication_ratio ["A", "B", "A", "B"] = 1/2 := by
  unfold _row_duplication_ratio
  dsimp only
  have h1 : (["A", "B", "A", "B"].filter (fun c => decide (pyStrip c ≠ ""))) =
      ["A", "B", "A", "B"] := by decide
  have h2 : pyUniqueList ["A", "B", "A", "B"] = ["A", "B"] := by decide
  rw [h1, h2]
  norm_num

theorem avg_dup_ABAB :
    avg_duplication ⟨["h1", "h2", "h3", "h4", "h5", "h6", "h7", "h8", "h9", "h10"],
      [["A", "B", "A", "B"]], 0, 2⟩ = 1/2 := by
  unfold avg_duplication
  dsimp only
  rw [List.map_cons, List.map_nil, row_dup_ratio_ABAB]
  norm_num

/-- C4 witness: a 9-column table with full duplication is not degenerate; a
10-column table with one data row of duplication ratio exactly 1/2 is
degenerate. -/
theorem is_degenerate_boundary_witness :
    is_degenerate ⟨["h1", "h2", "h3", "h4", "h5", "h6", "h7", "h8", "h9"],
        [["X", "X", "X", "X"]], 0, 2⟩ = false ∧
    avg_duplication ⟨["h1", "h2", "h3", "h4", "h5", "h6", "h7", "h8", "h9", "h10"],
        [["A", "B", "A", "B"]], 0, 2⟩ = 1/2 ∧
    is_degenerate ⟨["h1", "h2", "h3", "h4", "h5", "h6", "h7", "h8", "h9", "h10"],
        [["A", "B", "A", "B"]], 0, 2⟩ = true :=
  ⟨is_degenerate_boundary.1 _ (by decide),
    avg_dup_ABAB,
    is_degenerate_boundary.2 _ (by decide) avg_dup_ABAB⟩

/-! ### Fragment merging (C1) -/

/-- C1: on the item list `["YE", "Consulting and analysis", "S"]`, the
non-adjacent pass produces `["YES", "Consulting and analysis"]`, but the
subsequent adjacent pass prepends the short merged word `"YES"` (length
3 ≤ 4) to the long item, so `_merge_short_fragments` returns the single item
`["YES Consulting and analysis"]` — contradicting the example given in the
function's own docstring. -/
theorem merge_short_fragments_example :
    _merge_nonadjacent_alpha_fragments ["YE", "Consulting and analysis", "S"] 4 =
      ["YES", "Consulting and analysis"] ∧
    _merge_short_fragments ["YE", "Consulting and analysis", "S"] =
      ["YES Consulting and analysis"] ∧
    _merge_short_fragments ["YE", "Consulting and analysis", "S"] ≠
      ["YES", "Consulting and analysis"] := by
  refine ⟨by decide, by decide, by decide⟩

/-! ### Degenerate restructuring scenario (C2) -/

theorem gh_ratio_scenario2 : _generic_header_ratio scenario2Header = 12/14 := by
  unfold _generic_header_ratio
  dsimp only
  have h1 : (scenario2Header.filter (fun h => decide (pyStrip h ≠ ""))) = scenario2Header := by
    decide
  have h2 : scenario2Header.countP (fun h => _GENERIC_HEADER_RE (pyStrip h)) = 12 := by
    decide
  rw [h1, h2]
  norm_num [scenario2Header]

theorem is_degenerate_scenario2 (rows : List (List String)) (sl el : Nat) :
    is_degenerate ⟨scenario2Header, rows, sl, el⟩ = true := by
  unfold is_degenerate MIN_COLUMNS_FOR_DEGENERATE GENERIC_HEADER_RATIO_THRESHOLD
  dsimp only
  rw [if_neg (by norm_num [scenario2Header])]
  exact decide_eq_true (Or.inr (by rw [gh_ratio_scenario2]; norm_num))

/-- C2 counterexample: for the scenario-2 table whose data-row cells all
equal `"Same"`, the restructured output is
`"## Same\n\n### Same\n\n- Same\n"`; it contains no `"### Role"` heading at
all (the role is read from data-row column 1, which is `"Same"`; the entry
seeded from the header cell `"Role"` is dropped because its content cells
are all generic `ColN` placeholders). -/
theorem restructure_scenario2_counterexample :
    is_degenerate ⟨scenario2Header, [List.replicate 14 "Same"], 0, 2⟩ = true ∧
    restructure_degenerate ⟨scenario2Header, [List.replicate 14 "Same"], 0, 2⟩ =
      "## Same\n\n### Same\n\n- Same\n" ∧
    strContains
      (restructure_degenerate ⟨scenario2Header, [List.replicate 14 "Same"], 0, 2⟩)
      "### Role" = false := by
  refine ⟨is_degenerate_scenario2 _ 0 2, by decide, by decide⟩

theorem pyUniqueList_replicate (n : Nat) (hn : n ≠ 0) (x : String) :
    pyUniqueList (List.replicate n x) = [x] := by
  have aux : ∀ m, List.foldl (fun acc y => if y ∈ acc then acc else acc ++ [y]) [x]
      (List.replicate m x) = [x] := by
    intro m
    induction m with
    | zero => rfl
    | succ m ih => simpa [List.replicate_succ] using ih
  obtain ⟨m, rfl⟩ := Nat.exists_eq_succ_of_ne_zero hn
  unfold pyUniqueList
  simpa [List.replicate_succ] using aux m

theorem foldl_fix {α β : Type} (f : α → β → α) (a : α) (b : β) (l : List β)
    (h : ∀ x ∈ l, x = b) (hfix : f a b = a) : l.foldl f a = a := by
  induction l with
  | nil => rfl
  | cons y ys ih =>
    have hy : y = b := h y (by simp)
    have hrest : ∀ x ∈ ys, x = b := fun x hx => h x (by simp [hx])
    rw [List.foldl_cons, hy, hfix]
    exact ih hrest

theorem restructSeed_scenario2 (rows : List (List String)) (sl el : Nat) :
    restructSeed ⟨scenario2Header, rows, sl, el⟩ = [] := by
  unfold restructSeed
  dsimp only
  decide

theorem restructTitle_scenario2 (m : Nat) (sl el : Nat) :
    restructTitle ⟨scenario2Header, List.replicate (m + 1) (List.replicate 14 "Same"),
      sl, el⟩ = some "Same" := by
  unfold restructTitle
  dsimp only
  rw [List.filter_eq_self.mpr (fun a ha => by rw [List.eq_of_mem_replicate ha]; decide),
    List.map_replicate,
    show pyStrip (_strip_bold (_clean_br (List.replicate 14 ("Same" : String)).headI)) = "Same"
      from by decide,
    pyUniqueList_replicate (m + 1) (by omega) "Same"]
  rfl

theorem restructAssoc_scenario2 (m : Nat) (sl el : Nat) :
    restructAssoc ⟨scenario2Header, List.replicate (m + 1) (List.replicate 14 "Same"),
      sl, el⟩ = [("Same", ["Same"])] := by
  unfold restructAssoc
  dsimp only
  rw [restructTitle_scenario2 m sl el, restructSeed_scenario2]
  rw [List.replicate_succ, List.foldl_cons]
  rw [show restructRowStep (pyTruthyOptStr (some "Same")) [] (List.replicate 14 "Same") =
      [("Same", ["Same"])] from by decide]
  exact foldl_fix _ _ _ _ (fun x hx => (List.eq_of_mem_replicate hx)) (by decide)

/-- C2 (amended): for any table with header `Title, Role, Col3..Col14` whose
data rows (at least one) all consist of cells equal to `"Same"`, the table is
degenerate and `restructure_degenerate` produces exactly one bullet line
`"- Same"`, placed under the level-3 heading `"### Same"` (the cleaned role
cell of the data rows) — not under `"### Role"`. -/
theorem restructure_scenario2 (rows : List (List String)) (sl el : Nat)
    (hne : rows ≠ []) (hall : ∀ r ∈ rows, r = List.replicate 14 "Same") :
    is_degenerate ⟨scenario2Header, rows, sl, el⟩ = true ∧
    restructure_degenerate ⟨scenario2Header, rows, sl, el⟩ =
      "## Same\n\n### Same\n\n- Same\n" ∧
    (pySplitLines (restructure_degenerate ⟨scenario2Header, rows, sl, el⟩)).countP
        (fun l => "- ".data.isPrefixOf l.data) = 1 := by
  obtain ⟨m, hm⟩ : ∃ m, rows.length = m + 1 := by
    have := List.length_pos.mpr hne
    exact ⟨rows.length - 1, by omega⟩
  have hrows : rows = List.replicate (m + 1) (List.replicate 14 "Same") := by
    rw [← hm]
    exact List.eq_replicate_iff.mpr ⟨rfl, hall⟩
  subst hrows
  refine ⟨is_degenerate_scenario2 _ sl el, ?_⟩
  have hout : restructure_degenerate ⟨scenario2Header,
      List.replicate (m + 1) (List.replicate 14 "Same"), sl, el⟩ =
      "## Same\n\n### Same\n\n- Same\n" := by
    unfold restructure_degenerate
    dsimp only
    rw [restructTitle_scenario2 m sl el, restructAssoc_scenario2 m sl el]
    decide
  refine ⟨hout, ?_⟩
  rw [hout]
  decide

/-- C2 witness: the single-row instance. -/
theorem restructure_scenario2_witness :
    is_degenerate ⟨scenario2Header, [List.replicate 14 "Same"], 3, 5⟩ = true ∧
    restructure_degenerate ⟨scenario2Header, [List.replicate 14 "Same"], 3, 5⟩ =
      "## Same\n\n### Same\n\n- Same\n" ∧
    (pySplitLines (restructure_degenerate
        ⟨scenario2Header, [List.replicate 14 "Same"], 3, 5⟩)).countP
        (fun l => "- ".data.isPrefixOf l.data) = 1 :=
  restructure_scenario2 [List.replicate 14 "Same"] 3 5 (by decide)
    (fun r hr => by simpa using hr)

/-! ### Driver pass-through (C8) -/

/-- C8: when `find_tables` detects no table, `postprocess_tables` returns the
input unchanged. -/
theorem postprocess_tables_id_of_no_tables (s : String) (h : find_tables s = []) :
    postprocess_tables s = s := by
  unfold postprocess_tables
  rw [h]
  rfl

/-- C8 witness: the passthrough on a concrete table-free document. -/
theorem postprocess_tables_id_witness :
    find_tables "Hello world\n\nSome text." = [] ∧
    postprocess_tables "Hello world\n\nSome text." = "Hello world\n\nSome text." :=
  ⟨by decide, postprocess_tables_id_of_no_tables _ (by decide)⟩

/-! ### Parser span invariants (C9, C3) -/

theorem _data_end_go_ge (lines : List String) :
    ∀ fuel j, j ≤ _data_end_go lines fuel j := by
  intro fuel
  induction fuel with
  | zero => intro j; exact le_rfl
  | succ fuel ih =>
    intro j
    unfold _data_end_go
    split
    · exact le_trans (by omega) (ih (j + 1))
    · exact le_rfl

theorem _data_end_go_le (lines : List String) :
    ∀ fuel j, j ≤ lines.length → _data_end_go lines fuel j ≤ lines.length := by
  intro fuel
  induction fuel with
  | zero => intro j h; exact h
  | succ fuel ih =>
    intro j h
    unfold _data_end_go
    split
    · rename_i hc
      exact ih (j + 1) (by omega)
    · exact h

theorem _data_end_ge (lines : List String) (j : Nat) : j ≤ _data_end lines j :=
  _data_end_go_ge lines _ j

theorem _data_end_le (lines : List String) (j : Nat) (h : j ≤ lines.length) :
    _data_end lines j ≤ lines.length :=
  _data_end_go_le lines _ j h

theorem mem_usedRange {start last k : Nat} :
    k ∈ (List.range (last + 1 - start)).map (fun m => start + m) ↔
      start ≤ k ∧ k ≤ last ∧ start ≤ last + 1 := by
  simp only [List.mem_map, List.mem_range]
  constructor
  · rintro ⟨m, hm, rfl⟩
    omega
  · rintro ⟨h1, h2, h3⟩
    exact ⟨k - start, by omega, by omega⟩

theorem find_tables_aux_mem (lines : List String) :
    ∀ fuel i used t, t ∈ find_tables_aux lines fuel i used →
      i ≤ t.start_line + 1 ∧ t.start_line + 1 ∉ used ∧
      t.start_line + 1 ≤ t.end_line ∧ t.end_line < lines.length := by
  intro fuel
  induction fuel with
  | zero => intro i used t ht; simp [find_tables_aux] at ht
  | succ fuel ih =>
    intro i used t ht
    unfold find_tables_aux at ht
    by_cases h1 : i < lines.length
    · rw [if_pos h1] at ht
      by_cases h2 : i ∈ used
      · rw [if_pos h2] at ht
        have := ih (i + 1) used t ht
        exact ⟨by omega, this.2.1, this.2.2⟩
      · rw [if_neg h2] at ht
        by_cases h3 : _is_separator_line (lines.getD i "") = false
        · rw [if_pos h3] at ht
          have := ih (i + 1) used t ht
          exact ⟨by omega, this.2.1, this.2.2⟩
        · rw [if_neg h3] at ht
          by_cases h4 : i = 0
          · rw [if_pos h4] at ht
            have := ih (i + 1) used t ht
            exact ⟨by omega, this.2.1, this.2.2⟩
          · rw [if_neg h4] at ht
            by_cases h5 : _is_table_row (lines.getD (i - 1) "") = false
            · rw [if_pos h5] at ht
              have := ih (i + 1) used t ht
              exact ⟨by omega, this.2.1, this.2.2⟩
            · rw [if_neg h5] at ht
              dsimp only at ht
              by_cases h6 : 1 <
                  (((_split_row (lines.getD (i - 1) "")).length : ℤ) -
                    ((_split_row (lines.getD i "")).length : ℤ)).natAbs
              · rw [if_pos h6] at ht
                have := ih (i + 1) used t ht
                exact ⟨by omega, this.2.1, this.2.2⟩
              · rw [if_neg h6] at ht
                rcases List.mem_cons.mp ht with rfl | ht'
                · dsimp only
                  have hj1 : i + 1 ≤ _data_end lines (i + 1) := _data_end_ge lines (i + 1)
                  have hj2 : _data_end lines (i + 1) ≤ lines.length :=
                    _data_end_le lines (i + 1) (by omega)
                  refine ⟨by omega, ?_, by omega, by omega⟩
                  have : i - 1 + 1 = i := by omega
                  rw [this]
                  exact h2
                · have := ih (i + 1) _ t ht'
                  refine ⟨by omega, ?_, this.2.2⟩
                  intro hmem
                  exact this.2.1 (List.mem_append.mpr (Or.inl hmem))
    · rw [if_neg h1] at ht
      simp at ht

theorem find_tables_aux_pairwise (lines : List String) :
    ∀ fuel i used,
      List.Pairwise (fun a b : ParsedTable =>
          a.end_line ≤ b.start_line ∧ a.start_line < b.start_line)
        (find_tables_aux lines fuel i used) := by
  intro fuel
  induction fuel with
  | zero => intro i used; simp [find_tables_aux]
  | succ fuel ih =>
    intro i used
    unfold find_tables_aux
    by_cases h1 : i < lines.length
    · rw [if_pos h1]
      by_cases h2 : i ∈ used
      · rw [if_pos h2]; exact ih (i + 1) used
      · rw [if_neg h2]
        by_cases h3 : _is_separator_line (lines.getD i "") = false
        · rw [if_pos h3]; exact ih (i + 1) used
        · rw [if_neg h3]
          by_cases h4 : i = 0
          · rw [if_pos h4]; exact ih (i + 1) used
          · rw [if_neg h4]
            by_cases h5 : _is_table_row (lines.getD (i - 1) "") = false
            · rw [if_pos h5]; exact ih (i + 1) used
            · rw [if_neg h5]
              dsimp only
              by_cases h6 : 1 <
                  (((_split_row (lines.getD (i - 1) "")).length : ℤ) -
                    ((_split_row (lines.getD i "")).length : ℤ)).natAbs
              · rw [if_pos h6]; exact ih (i + 1) used
              · rw [if_neg h6]
                refine List.Pairwise.cons ?_ (ih (i + 1) _)
                intro b hb
                have hmem := find_tables_aux_mem lines fuel (i + 1) _ b hb
                have hub : b.start_line + 1 ∉ _ := hmem.2.1
                have hj1 : i + 1 ≤ _data_end lines (i + 1) := _data_end_ge lines (i + 1)
                have hnotin : b.start_line + 1 ∉
                    (List.range (_data_end lines (i + 1) - 1 + 1 - (i - 1))).map
                      (fun m => i - 1 + m) := by
                  intro hx
                  exact hub (List.mem_append.mpr (Or.inr hx))
                rw [mem_usedRange] at hnotin
                dsimp only
                have hge : i + 1 ≤ b.start_line + 1 := hmem.1
                constructor
                · by_contra hlt
                  push_neg at hlt
                  exact hnotin ⟨by omega, by omega, by omega⟩
                · omega
    · rw [if_neg h1]
      simp

/-- C9: the tables returned by `find_tables` have strictly increasing
`start_line`; every span covers at least the header and separator lines
(`start_line + 1 ≤ end_line`) and ends before the document's line count. -/
theorem find_tables_span_invariants (s : String) :
    List.Pairwise (fun a b : ParsedTable => a.start_line < b.start_line) (find_tables s) ∧
    ∀ t ∈ find_tables s, t.start_line + 1 ≤ t.end_line ∧ t.end_line < line_count s := by
  constructor
  · exact (find_tables_aux_pairwise _ _ 0 []).imp (fun h => h.2)
  · intro t ht
    have := find_tables_aux_mem _ _ 0 [] t ht
    exact ⟨this.2.2.1, this.2.2.2⟩

/-- C9 witness: the invariants instantiated on end-to-end scenario 1. -/
theorem find_tables_span_invariants_witness :
    (⟨["A", "B"], [["1", "2"], ["3", "4"]], 0, 3⟩ : ParsedTable) ∈
      find_tables "| A | B |\n|---|---|\n| 1 | 2 |\n| 3 | 4 |" ∧
    (0 + 1 ≤ 3 ∧ 3 < line_count "| A | B |\n|---|---|\n| 1 | 2 |\n| 3 | 4 |") :=
  ⟨by decide,
    (find_tables_span_invariants "| A | B |\n|---|---|\n| 1 | 2 |\n| 3 | 4 |").2
      ⟨["A", "B"], [["1", "2"], ["3", "4"]], 0, 3⟩ (by decide)⟩

/-- C3 counterexample: on the document
`"| a | b |\n|---|---|\n| c | d |\n|---|---|"` the parser returns two tables
with spans [0, 2] and [2, 3]: line 2 (the data row `| c | d |`) belongs to
both spans, because the used-lines check is applied only to the separator
line, not to the header line of a candidate table. -/
theorem find_tables_overlapping_spans :
    find_tables "| a | b |\n|---|---|\n| c | d |\n|---|---|" =
      [⟨["a", "b"], [["c", "d"]], 0, 2⟩, ⟨["c", "d"], [], 2, 3⟩] ∧
    ∃ t1 ∈ find_tables "| a | b |\n|---|---|\n| c | d |\n|---|---|",
      ∃ t2 ∈ find_tables "| a | b |\n|---|---|\n| c | d |\n|---|---|",
        t1 ≠ t2 ∧ t1.start_line ≤ 2 ∧ 2 ≤ t1.end_line ∧
          t2.start_line ≤ 2 ∧ 2 ≤ t2.end_line := by
  refine ⟨by decide, by decide⟩

/-- C3 (amended): the spans of the returned tables can share at most their
boundary line: for any two tables in return order, the earlier table's
`end_line` is at most the later table's `start_line` (so the half-open spans
`[start_line, end_line)` are pairwise disjoint, and a line index can be
shared only as one table's `end_line` and the next table's `start_line`). -/
theorem find_tables_spans_almost_disjoint (s : String) :
    List.Pairwise (fun a b : ParsedTable => a.end_line ≤ b.start_line) (find_tables s) :=
  (find_tables_aux_pairwise _ _ 0 []).imp (fun h => h.1)

/-! ### Rebuilt table layout (C5) -/

theorem mem_pyStripL {c : Char} {cs : List Char} (h : c ∈ pyStripL cs) : c ∈ cs := by
  unfold pyStripL at h
  rw [List.mem_reverse] at h
  have h2 := (List.dropWhile_sublist pyIsSpaceChar).mem h
  rw [List.mem_reverse] at h2
  exact (List.dropWhile_sublist pyIsSpaceChar).mem h2

theorem collapseWsGo_space {c : Char} (hws : pyIsSpaceChar c = true) :
    ∀ {b : Bool} {cs : List Char}, c ∈ collapseWsGo b cs → c = ' ' := by
  intro b cs
  induction cs generalizing b with
  | nil => intro h; simp [collapseWsGo] at h
  | cons d rest ih =>
    intro h
    unfold collapseWsGo at h
    by_cases hd : pyIsSpaceChar d
    · rw [if_pos hd] at h
      by_cases hb : b
      · rw [if_pos hb] at h; exact ih h
      · rw [if_neg hb] at h
        rcases List.mem_cons.mp h with rfl | h'
        · rfl
        · exact ih h'
    · rw [if_neg hd] at h
      rcases List.mem_cons.mp h with rfl | h'
      · rw [hws] at hd; exact absurd rfl hd
      · exact ih h'

theorem noNl_clean_br (x : String) : '\n' ∉ (_clean_br x).data := by
  intro h
  have h2 : ('\n' : Char) ∈ collapseWsGo false (replaceBrL x.data) := mem_pyStripL h
  have := collapseWsGo_space (c := '\n') (by decide) h2
  exact absurd this (by decide)

theorem pyLinesL_noNl {l : List Char} (h : '\n' ∉ l) : pyLinesL l = [l] := by
  induction l with
  | nil => rfl
  | cons c rest ih =>
    have hc : ¬ (c = '\n') := fun he => h (he ▸ List.mem_cons_self c rest)
    have hr : '\n' ∉ rest := fun hm => h (List.mem_cons_of_mem c hm)
    unfold pyLinesL
    rw [if_neg hc, ih hr]

theorem pyLinesL_append_nl {l : List Char} (rest : List Char) (h : '\n' ∉ l) :
    pyLinesL (l ++ '\n' :: rest) = l :: pyLinesL rest := by
  induction l with
  | nil =>
    show pyLinesL ('\n' :: rest) = [] :: pyLinesL rest
    conv_lhs => unfold pyLinesL
    rw [if_pos rfl]
  | cons c cl ih =>
    have hc : ¬ (c = '\n') := fun he => h (he ▸ List.mem_cons_self c cl)
    have hr : '\n' ∉ cl := fun hm => h (List.mem_cons_of_mem c hm)
    show pyLinesL (c :: (cl ++ '\n' :: rest)) = (c :: cl) :: pyLinesL rest
    conv_lhs => unfold pyLinesL
    rw [if_neg hc, ih hr]

theorem pyLinesL_joinWith :
    ∀ (ls : List (List Char)), ls ≠ [] → (∀ l ∈ ls, '\n' ∉ l) →
      pyLinesL (joinWith ['\n'] ls) = ls := by
  intro ls
  induction ls with
  | nil => intro h; exact absurd rfl h
  | cons l ls ih =>
    intro _ h
    cases ls with
    | nil => exact pyLinesL_noNl (h l (by simp))
    | cons l2 ls2 =>
      show pyLinesL (l ++ ['\n'] ++ joinWith ['\n'] (l2 :: ls2)) = l :: (l2 :: ls2)
      rw [List.append_assoc, List.singleton_append,
        pyLinesL_append_nl _ (h l (by simp)),
        ih (by simp) (fun x hx => h x (List.mem_cons_of_mem l hx))]

theorem pySplitLines_pyJoinNl (xs : List String) (hne : xs ≠ [])
    (h : ∀ x ∈ xs, '\n' ∉ x.data) : pySplitLines (pyJoinNl xs) = xs := by
  unfold pySplitLines pyJoinNl
  have hmap : ∀ l ∈ xs.map String.data, '\n' ∉ l := by
    intro l hl
    obtain ⟨x, hx, rfl⟩ := List.mem_map.mp hl
    exact h x hx
  rw [show (String.mk (joinWith ['\n'] (xs.map String.data))).data =
      joinWith ['\n'] (xs.map String.data) from rfl]
  rw [pyLinesL_joinWith (xs.map String.data) (by simpa using hne) hmap]
  rw [List.map_map]
  exact List.map_id'' (fun x => rfl) xs

theorem mem_joinWith {c : Char} {sep : List Char} :
    ∀ {ls : List (List Char)}, c ∈ joinWith sep ls → c ∈ sep ∨ ∃ l ∈ ls, c ∈ l := by
  intro ls
  induction ls with
  | nil => intro h; simp [joinWith] at h
  | cons l ls ih =>
    intro h
    cases ls with
    | nil => exact Or.inr ⟨l, by simp, h⟩
    | cons l2 ls2 =>
      have h' : c ∈ l ++ sep ++ joinWith sep (l2 :: ls2) := h
      rcases List.mem_append.mp h' with h2 | h2
      · rcases List.mem_append.mp h2 with h3 | h3
        · exact Or.inr ⟨l, by simp, h3⟩
        · exact Or.inl h3
      · rcases ih h2 with h3 | ⟨x, hx, hcx⟩
        · exact Or.inl h3
        · exact Or.inr ⟨x, List.mem_cons_of_mem l hx, hcx⟩

theorem noNl_fmt_row (widths : List Nat) (cells : List String)
    (h : ∀ cell ∈ cells, '\n' ∉ cell.data) : '\n' ∉ (_fmt_row widths cells).data := by
  intro hmem
  have hmem' : ('\n' : Char) ∈ '|' :: (joinWith ['|']
      ((List.range cells.length).map (fun ci =>
        _fmt_cell (if ci < widths.length then widths.getD ci 0 else 3)
          (cells.getD ci ""))) ++ ['|']) := hmem
  rcases List.mem_cons.mp hmem' with he | hmem2
  · exact absurd he (by decide)
  rcases List.mem_append.mp hmem2 with hmem3 | he
  · rcases mem_joinWith hmem3 with hsep | ⟨l, hl, hcl⟩
    · simp at hsep
    · obtain ⟨ci, _, rfl⟩ := List.mem_map.mp hl
      unfold _fmt_cell at hcl
      rcases List.mem_cons.mp hcl with he | hcl2
      · exact absurd he (by decide)
      rcases List.mem_append.mp hcl2 with hcl3 | he
      · rcases List.mem_append.mp hcl3 with hcl4 | he
        · by_cases hci : ci < cells.length
          · have := h (cells.getD ci "") (by
              rw [List.getD_eq_getElem _ _ hci]
              exact List.getElem_mem hci)
            exact this hcl4
          · rw [List.getD_eq_default _ _ (by omega)] at hcl4
            simp at hcl4
        · have := List.eq_of_mem_replicate he
          exact absurd this (by decide)
      · simp at he
  · simp at he

theorem noNl_rebuildSep (widths : List Nat) : '\n' ∉ (rebuildSep widths).data := by
  intro hmem
  have hmem' : ('\n' : Char) ∈ '|' :: (joinWith ['|']
      (widths.map (fun w => List.replicate (w + 2) '-')) ++ ['|']) := hmem
  rcases List.mem_cons.mp hmem' with he | hmem2
  · exact absurd he (by decide)
  rcases List.mem_append.mp hmem2 with hmem3 | he
  · rcases mem_joinWith hmem3 with hsep | ⟨l, hl, hcl⟩
    · simp at hsep
    · obtain ⟨w, _, rfl⟩ := List.mem_map.mp hl
      have := List.eq_of_mem_replicate hcl
      exact absurd this (by decide)
  · simp at he

theorem widths_foldl_length :
    ∀ (rows : List (List String)) (init : List Nat),
      (∀ r ∈ rows, r.length = init.length) →
      (rows.foldl (fun ws r => List.zipWith (fun w (cell : String) => max w cell.length) ws r)
        init).length = init.length := by
  intro rows
  induction rows with
  | nil => intro init _; rfl
  | cons r rs ih =>
    intro init hall
    have hr : r.length = init.length := hall r (by simp)
    have hlen : (List.zipWith (fun w (cell : String) => max w cell.length) init r).length =
        init.length := by
      rw [List.length_zipWith]
      omega
    rw [List.foldl_cons, ih _ (by intro x hx; rw [hlen]; exact hall x (by simp [hx])), hlen]

theorem widths_foldl_getD :
    ∀ (rows : List (List String)) (init : List Nat) (ci : Nat), ci < init.length →
      (∀ r ∈ rows, r.length = init.length) →
      (rows.foldl (fun ws r => List.zipWith (fun w (cell : String) => max w cell.length) ws r)
          init).getD ci 0 =
        max (init.getD ci 0) ((rows.map (fun r => (r.getD ci "").length)).foldr max 0) := by
  intro rows
  induction rows with
  | nil => intro init ci _ _; simp
  | cons r rs ih =>
    intro init ci hci hall
    have hr : r.length = init.length := hall r (by simp)
    have hlen : (List.zipWith (fun w (cell : String) => max w cell.length) init r).length =
        init.length := by
      rw [List.length_zipWith]
      omega
    rw [List.foldl_cons,
      ih _ ci (by omega) (by intro x hx; rw [hlen]; exact hall x (by simp [hx]))]
    have hz : (List.zipWith (fun w (cell : String) => max w cell.length) init r).getD ci 0 =
        max (init.getD ci 0) (r.getD ci "").length := by
      rw [List.getD_eq_getElem _ _ (by omega), List.getElem_zipWith,
        List.getD_eq_getElem _ _ hci, List.getD_eq_getElem _ _ (by omega)]
    rw [hz, List.map_cons, List.foldr_cons, max_assoc]

theorem rebuildWidths_length (header : List String) (nrows : List (List String))
    (h : ∀ r ∈ nrows, r.length = header.length) :
    (rebuildWidths header nrows).length = header.length := by
  unfold rebuildWidths
  rw [widths_foldl_length nrows _ (by simpa using h)]
  simp

theorem rebuildWidths_getD (header : List String) (nrows : List (List String)) (ci : Nat)
    (hci : ci < header.length) (h : ∀ r ∈ nrows, r.length = header.length) :
    (rebuildWidths header nrows).getD ci 0 = colWidthSpec header nrows ci := by
  unfold rebuildWidths colWidthSpec
  rw [widths_foldl_getD nrows _ ci (by simpa using hci) (by simpa using h)]
  congr 1
  rw [List.getD_eq_getElem _ _ (by simpa using hci), List.getElem_map,
    List.getD_eq_getElem _ _ hci]

theorem normaliseRows_mem_length (c : Nat) (rows : List (List String)) :
    ∀ r ∈ normaliseRows c rows, r.length = c := by
  intro r hr
  unfold normaliseRows at hr
  obtain ⟨r0, _, rfl⟩ := List.mem_map.mp hr
  split_ifs with hl
  · simp
    omega
  · simp
    omega

theorem _fmt_row_spec (header : List String) (R : List (List String)) (cells : List String)
    (hlen : ∀ r ∈ R, r.length = header.length) (hcells : cells.length ≤ header.length) :
    _fmt_row (rebuildWidths header R) cells = rowSpec header R cells := by
  have hwl := rebuildWidths_length header R hlen
  unfold _fmt_row rowSpec
  have hmap : (List.range cells.length).map (fun ci =>
      _fmt_cell (if ci < (rebuildWidths header R).length
        then (rebuildWidths header R).getD ci 0 else 3) (cells.getD ci "")) =
      (List.range cells.length).map (fun ci =>
        paddedCellSpec (colWidthSpec header R ci) (cells.getD ci "")) := by
    apply List.map_congr_left
    intro ci hci
    rw [List.mem_range] at hci
    rw [if_pos (by omega), rebuildWidths_getD header R ci (by omega) hlen]
    rfl
  rw [hmap]

theorem rebuildSep_spec (header : List String) (R : List (List String))
    (hlen : ∀ r ∈ R, r.length = header.length) :
    rebuildSep (rebuildWidths header R) = sepRowSpec header R := by
  have hwl := rebuildWidths_length header R hlen
  unfold rebuildSep sepRowSpec
  have hmap : (rebuildWidths header R).map (fun w => List.replicate (w + 2) '-') =
      (List.range header.length).map (fun ci =>
        List.replicate (colWidthSpec header R ci + 2) '-') := by
    apply List.ext_getElem (by simp [hwl])
    intro i h1 h2
    rw [List.getElem_map, List.getElem_map, List.getElem_range]
    have hi : i < header.length := by
      rw [List.length_map, hwl] at h1
      exact h1
    rw [← List.getD_eq_getElem _ 0 (by rw [hwl]; exact hi),
      rebuildWidths_getD header R i hi hlen]
  rw [hmap]


theorem getD_map_clean_br_noNl (l : List String) (i : Nat) :
    '\n' ∉ ((l.map _clean_br).getD i "").data := by
  by_cases h : i < l.length
  · rw [List.getD_eq_getElem _ _ (by simpa using h), List.getElem_map]
    exact noNl_clean_br _
  · rw [List.getD_eq_default _ _ (by simpa using h)]
    simp

theorem infer_column_name_day (i : Nat) (rows : List (List String)) (s : String)
    (h : _infer_column_name i rows = some s) : s = "Day" := by
  unfold _infer_column_name at h
  dsimp only at h
  split_ifs at h <;> simp_all

theorem clean_header_cells_noNl (t : ParsedTable) :
    ∀ cell ∈ clean_header_cells t, '\n' ∉ cell.data := by
  intro cell hc
  unfold clean_header_cells at hc
  obtain ⟨i, hmem, heq⟩ := List.mem_map.mp hc
  dsimp only at heq
  subst heq
  split_ifs with hg
  · cases hinf : _infer_column_name i t.data_rows with
    | none => exact getD_map_clean_br_noNl _ _
    | some s =>
      have hs := infer_column_name_day i t.data_rows s hinf
      subst hs
      dsimp only
      split_ifs with hse
      · exact getD_map_clean_br_noNl _ _
      · decide
  · exact getD_map_clean_br_noNl _ _

theorem clean_rows_after_subheader_noNl (t : ParsedTable) :
    ∀ r ∈ clean_rows_after_subheader t, ∀ cell ∈ r, '\n' ∉ cell.data := by
  intro r hr cell hc
  unfold clean_rows_after_subheader at hr
  dsimp only at hr
  split_ifs at hr with hcond
  · have hr2 : r ∈ t.data_rows.map (fun row => row.map _clean_br) := List.mem_of_mem_tail hr
    obtain ⟨row, _, heq⟩ := List.mem_map.mp hr2
    subst heq
    obtain ⟨x, _, heq2⟩ := List.mem_map.mp hc
    subst heq2
    exact noNl_clean_br x
  · obtain ⟨row, _, heq⟩ := List.mem_map.mp hr
    subst heq
    obtain ⟨x, _, heq2⟩ := List.mem_map.mp hc
    subst heq2
    exact noNl_clean_br x

theorem clean_pair_header_noNl (t : ParsedTable) :
    ∀ cell ∈ (clean_table_header_rows t).1, '\n' ∉ cell.data := by
  intro cell hc
  unfold clean_table_header_rows at hc
  dsimp only at hc
  split_ifs at hc with hcond
  · obtain ⟨ci, hci, heq⟩ := List.mem_map.mp hc
    subst heq
    have hlt : ci < (clean_header_cells t).length := by
      have := (List.mem_filter.mp hci).2
      simpa using this
    rw [List.getD_eq_getElem _ _ hlt]
    exact clean_header_cells_noNl t _ (List.getElem_mem hlt)
  · exact clean_header_cells_noNl t cell hc

theorem clean_pair_rows_noNl (t : ParsedTable) :
    ∀ r ∈ (clean_table_header_rows t).2, ∀ cell ∈ r, '\n' ∉ cell.data := by
  intro r hr cell hc
  unfold clean_table_header_rows at hr
  dsimp only at hr
  split_ifs at hr with hcond
  · obtain ⟨r0, hr0, heq⟩ := List.mem_map.mp hr
    subst heq
    obtain ⟨ci, _, heq2⟩ := List.mem_map.mp hc
    subst heq2
    split_ifs with hlt
    · rw [List.getD_eq_getElem _ _ hlt]
      exact clean_rows_after_subheader_noNl t r0 hr0 _ (List.getElem_mem hlt)
    · simp
  · exact clean_rows_after_subheader_noNl t r hr cell hc

theorem normaliseRows_noNl (c : Nat) (rows : List (List String))
    (h : ∀ r ∈ rows, ∀ cell ∈ r, '\n' ∉ cell.data) :
    ∀ r ∈ normaliseRows c rows, ∀ cell ∈ r, '\n' ∉ cell.data := by
  intro r hr cell hc
  unfold normaliseRows at hr
  obtain ⟨r0, hr0, heq⟩ := List.mem_map.mp hr
  subst heq
  revert hc
  split_ifs with hl
  · intro hc
    rcases List.mem_append.mp hc with h1 | h1
    · exact h r0 hr0 cell h1
    · have := List.eq_of_mem_replicate h1
      rw [this]
      simp
  · intro hc
    exact h r0 hr0 cell ((List.take_sublist _ _).mem hc)

theorem clean_header_cells_length (t : ParsedTable) :
    (clean_header_cells t).length = t.header_cells.length := by
  unfold clean_header_cells
  simp

theorem clean_pair_header_ne_nil (t : ParsedTable) (h : t.header_cells ≠ []) :
    (clean_table_header_rows t).1 ≠ [] := by
  unfold clean_table_header_rows
  dsimp only
  split_ifs with hcond
  · intro hnil
    rw [List.map_eq_nil_iff] at hnil
    have hkeep : clean_keep_cols t ≠ [] := by
      intro he
      rw [he] at hcond
      simp at hcond
    apply hkeep
    have hall : ∀ ci ∈ clean_keep_cols t, decide (ci < (clean_header_cells t).length) = true := by
      intro ci hci
      unfold clean_keep_cols at hci
      have := (List.mem_filter.mp hci).1
      simpa using List.mem_range.mp this
    rw [List.filter_eq_self.mpr hall] at hnil
    exact hnil
  · intro hnil
    have hnil2 : clean_header_cells t = [] := hnil
    have hl := clean_header_cells_length t
    rw [hnil2] at hl
    exact h (List.length_eq_zero.mp hl.symm)

/-- C5 (amended): in the table text produced by `clean_table` (with a
non-empty header), the separator row consists, for each retained column, of
`-` repeated to that column's maximum content width (minimum 3) PLUS TWO
(the two extra hyphens cover the cell padding), while header and data cells
are right-padded to the column's width with one leading and one trailing
space inside each `|`. -/
theorem clean_table_layout (t : ParsedTable) (h : t.header_cells ≠ []) :
    pySplitLines (clean_table t) =
      rowSpec (clean_table_header_rows t).1
          (normaliseRows (clean_table_header_rows t).1.length (clean_table_header_rows t).2)
          (clean_table_header_rows t).1 ::
        sepRowSpec (clean_table_header_rows t).1
          (normaliseRows (clean_table_header_rows t).1.length (clean_table_header_rows t).2) ::
        (normaliseRows (clean_table_header_rows t).1.length (clean_table_header_rows t).2).map
          (rowSpec (clean_table_header_rows t).1
            (normaliseRows (clean_table_header_rows t).1.length
              (clean_table_header_rows t).2)) := by
  have hH := clean_pair_header_ne_nil t h
  have hct : clean_table t =
      _rebuild_table (clean_table_header_rows t).1 (clean_table_header_rows t).2 := rfl
  rw [hct]
  unfold _rebuild_table
  rw [if_neg (by simpa [List.isEmpty_iff] using hH)]
  dsimp only
  have hlen : ∀ r ∈ normaliseRows (clean_table_header_rows t).1.length
      (clean_table_header_rows t).2, r.length = (clean_table_header_rows t).1.length :=
    normaliseRows_mem_length _ _
  rw [pySplitLines_pyJoinNl _ (by simp)
    (by
      intro x hx
      rcases List.mem_append.mp hx with h1 | h1
      · simp only [List.mem_cons, List.not_mem_nil, or_false] at h1
        rcases h1 with rfl | rfl
        · exact noNl_fmt_row _ _ (clean_pair_header_noNl t)
        · exact noNl_rebuildSep _
      · obtain ⟨r, hr, rfl⟩ := List.mem_map.mp h1
        exact noNl_fmt_row _ _ (normaliseRows_noNl _ _ (clean_pair_rows_noNl t) r hr))]
  simp only [List.cons_append, List.nil_append]
  rw [_fmt_row_spec _ _ _ hlen (le_refl _), rebuildSep_spec _ _ hlen,
    List.map_congr_left (fun r hr => _fmt_row_spec _ _ r hlen (le_of_eq (hlen r hr)))]

/-- C5 counterexample: for the one-column table with header `"ab"` and no
data rows, the column's maximum content width is 3, yet the separator row is
`"|-----|"` (five hyphens, width + 2), not `"|---|"` as the claim's reading
(`'-'` repeated to the content width) would give. -/
theorem clean_table_sep_counterexample :
    pySplitLines (clean_table ⟨["ab"], [], 0, 1⟩) = ["| ab  |", "|-----|"] ∧
    colWidthSpec (clean_table_header_rows ⟨["ab"], [], 0, 1⟩).1
      (normaliseRows (clean_table_header_rows ⟨["ab"], [], 0, 1⟩).1.length
        (clean_table_header_rows ⟨["ab"], [], 0, 1⟩).2) 0 = 3 ∧
    ("|-----|" : String) ≠ "|---|" := by
  refine ⟨by decide, by decide, by decide⟩

/-- C5 witness: the layout theorem instantiated on the same one-column
table. -/
theorem clean_table_layout_witness :
    (⟨["ab"], [], 0, 1⟩ : ParsedTable).header_cells ≠ [] ∧
    pySplitLines (clean_table ⟨["ab"], [], 0, 1⟩) =
      rowSpec (clean_table_header_rows ⟨["ab"], [], 0, 1⟩).1
          (normaliseRows (clean_table_header_rows ⟨["ab"], [], 0, 1⟩).1.length
            (clean_table_header_rows ⟨["ab"], [], 0, 1⟩).2)
          (clean_table_header_rows ⟨["ab"], [], 0, 1⟩).1 ::
        sepRowSpec (clean_table_header_rows ⟨["ab"], [], 0, 1⟩).1
          (normaliseRows (clean_table_header_rows ⟨["ab"], [], 0, 1⟩).1.length
            (clean_table_header_rows ⟨["ab"], [], 0, 1⟩).2) ::
        (normaliseRows (clean_table_header_rows ⟨["ab"], [], 0, 1⟩).1.length
            (clean_table_header_rows ⟨["ab"], [], 0, 1⟩).2).map
          (rowSpec (clean_table_header_rows ⟨["ab"], [], 0, 1⟩).1
            (normaliseRows (clean_table_header_rows ⟨["ab"], [], 0, 1⟩).1.length
              (clean_table_header_rows ⟨["ab"], [], 0, 1⟩).2)) :=
  ⟨by decide, clean_table_layout ⟨["ab"], [], 0, 1⟩ (by decide)⟩

/-! ### Idempotence of `clean_table` on clean tables (C6) -/

theorem ratio_threshold_nat (m t : Nat) (ht : 0 < t) :
    ((7 : ℚ)/10 ≤ (m : ℚ) / (t : ℚ)) ↔ 7 * t ≤ 10 * m := by
  rw [div_le_div_iff (by norm_num) (by exact_mod_cast ht)]
  constructor
  · intro h
    have h2 : (7 : ℚ) * t ≤ 10 * m := by linarith
    exact_mod_cast h2
  · intro h
    have h2 : ((7 * t : Nat) : ℚ) ≤ ((10 * m : Nat) : ℚ) := by exact_mod_cast h
    push_cast at h2
    linarith

theorem _is_redundant_subheader_eq (row header : List String) :
    _is_redundant_subheader row header =
      (!row.isEmpty &&
        decide (7 * max row.length 1 ≤
          10 * (List.range row.length).countP (redundantCellMatch header row))) := by
  unfold _is_redundant_subheader REDUNDANT_ROW_RATIO_THRESHOLD
  dsimp only
  split_ifs with he
  · simp [he]
  · rw [show row.isEmpty = false from by simpa using he]
    simp only [Bool.not_false, Bool.true_and]
    exact decide_eq_decide.mpr (ratio_threshold_nat _ _ (by omega))

theorem clean_rows_after_subheader_of_not_red (t : ParsedTable)
    (h : _is_redundant_subheader ((t.data_rows.map (fun row => row.map _clean_br)).headI)
        (clean_header_cells t) = false) :
    clean_rows_after_subheader t = t.data_rows.map (fun row => row.map _clean_br) := by
  unfold clean_rows_after_subheader
  dsimp only
  rw [h]
  simp

theorem clean_table_pipe_val :
    clean_table ⟨["h"], [["a|b"]], 0, 2⟩ = "| h   |\n|-----|\n| a|b |" := by
  have hred : _is_redundant_subheader
      (((⟨["h"], [["a|b"]], 0, 2⟩ : ParsedTable).data_rows.map
        (fun row => row.map _clean_br)).headI)
      (clean_header_cells ⟨["h"], [["a|b"]], 0, 2⟩) = false := by
    rw [_is_redundant_subheader_eq]
    decide
  have hrows := clean_rows_after_subheader_of_not_red _ hred
  unfold clean_table clean_table_header_rows clean_keep_cols
  dsimp only
  rw [hrows]
  decide

theorem clean_table_ab_val :
    clean_table ⟨["h"], [["a", "b"]], 0, 2⟩ = "| h   |\n|-----|\n| a   |" := by
  have hred : _is_redundant_subheader
      (((⟨["h"], [["a", "b"]], 0, 2⟩ : ParsedTable).data_rows.map
        (fun row => row.map _clean_br)).headI)
      (clean_header_cells ⟨["h"], [["a", "b"]], 0, 2⟩) = false := by
    rw [_is_redundant_subheader_eq]
    decide
  have hrows := clean_rows_after_subheader_of_not_red _ hred
  unfold clean_table clean_table_header_rows clean_keep_cols
  dsimp only
  rw [hrows]
  decide

/-- C6 counterexample: the table with header `"h"` and single data cell
`"a|b"` satisfies the claim's hypotheses (no `<br` tag anywhere, no generic
header, first data row not a redundant sub-header), yet cleaning, re-parsing
and cleaning again changes the output: the unescaped pipe inside the cell is
re-parsed as a cell delimiter, so the second pass sees two cells and
truncates the ragged row to the single column. -/
theorem clean_table_not_idempotent :
    ((∀ cell ∈ (["h"] ++ ["a|b"] : List String), strContains cell "<br" = false) ∧
     (∀ h ∈ (["h"] : List String), _GENERIC_HEADER_RE (pyStrip h) = false) ∧
     _is_redundant_subheader
       (((⟨["h"], [["a|b"]], 0, 2⟩ : ParsedTable).data_rows.map
         (fun row => row.map _clean_br)).headI)
       (clean_header_cells ⟨["h"], [["a|b"]], 0, 2⟩) = false) ∧
    clean_table ⟨["h"], [["a|b"]], 0, 2⟩ = "| h   |\n|-----|\n| a|b |" ∧
    find_tables (clean_table ⟨["h"], [["a|b"]], 0, 2⟩) =
      [⟨["h"], [["a", "b"]], 0, 2⟩] ∧
    clean_table ⟨["h"], [["a", "b"]], 0, 2⟩ ≠ clean_table ⟨["h"], [["a|b"]], 0, 2⟩ := by
  refine ⟨⟨by decide, by decide, by rw [_is_redundant_subheader_eq]; decide⟩,
    clean_table_pipe_val, ?_, ?_⟩
  · rw [clean_table_pipe_val]
    decide
  · rw [clean_table_pipe_val, clean_table_ab_val]
    decide

theorem stripL_ws_cons {c : Char} (cs : List Char) (h : pyIsSpaceChar c = true) :
    pyStripL (c :: cs) = pyStripL cs := by
  unfold pyStripL
  rw [List.dropWhile_cons_of_pos h]

theorem pyStripL_eq_rstrip (cs : List Char) :
    pyStripL cs = ((cs.dropWhile pyIsSpaceChar).reverse.dropWhile pyIsSpaceChar).reverse := rfl

theorem startsWs_dropWhile (cs : List Char) :
    ∀ c, (cs.dropWhile pyIsSpaceChar).head? = some c → pyIsSpaceChar c = false := by
  induction cs with
  | nil => intro c h; simp at h
  | cons d rest ih =>
    intro c h
    by_cases hd : pyIsSpaceChar d
    · rw [List.dropWhile_cons_of_pos hd] at h
      exact ih c h
    · rw [List.dropWhile_cons_of_neg hd] at h
      simp at h
      subst h
      simpa using hd

theorem dropWhile_eq_self_of_head (cs : List Char)
    (h : ∀ c, cs.head? = some c → pyIsSpaceChar c = false) :
    cs.dropWhile pyIsSpaceChar = cs := by
  cases cs with
  | nil => rfl
  | cons c rest =>
    rw [List.dropWhile_cons_of_neg]
    simp [h c rfl]

theorem pyStripL_as_rstrip (cs : List Char) :
    pyStripL cs = rstripL (cs.dropWhile pyIsSpaceChar) := rfl

/-- All characters whitespace. -/
theorem dropWhile_allWs_nil {W : List Char} (h : ∀ c ∈ W, pyIsSpaceChar c = true) :
    W.dropWhile pyIsSpaceChar = [] := by
  induction W with
  | nil => rfl
  | cons c rest ih =>
    rw [List.dropWhile_cons_of_pos (h c (by simp))]
    exact ih (fun x hx => h x (by simp [hx]))

theorem dropWhile_prepend_allWs {W Y : List Char} (h : ∀ c ∈ W, pyIsSpaceChar c = true) :
    (W ++ Y).dropWhile pyIsSpaceChar = Y.dropWhile pyIsSpaceChar := by
  induction W with
  | nil => rfl
  | cons c rest ih =>
    rw [List.cons_append, List.dropWhile_cons_of_pos (h c (by simp))]
    exact ih (fun x hx => h x (by simp [hx]))

theorem rstripL_append_allWs {Z W : List Char} (h : ∀ c ∈ W, pyIsSpaceChar c = true) :
    rstripL (Z ++ W) = rstripL Z := by
  unfold rstripL
  rw [List.reverse_append, dropWhile_prepend_allWs (by simpa using h)]

theorem stripL_append_allWs {X W : List Char} (h : ∀ c ∈ W, pyIsSpaceChar c = true) :
    pyStripL (X ++ W) = pyStripL X := by
  rw [pyStripL_as_rstrip, pyStripL_as_rstrip, List.dropWhile_append]
  split_ifs with he
  · rw [dropWhile_allWs_nil h]
    rw [List.isEmpty_iff] at he
    rw [he]
  · exact rstripL_append_allWs h

theorem stripL_prepend_allWs {W X : List Char} (h : ∀ c ∈ W, pyIsSpaceChar c = true) :
    pyStripL (W ++ X) = pyStripL X := by
  rw [pyStripL_as_rstrip, pyStripL_as_rstrip, dropWhile_prepend_allWs h]

theorem stripL_padded {x : List Char} (k : Nat) (hx : pyStripL x = x) :
    pyStripL (' ' :: (x ++ List.replicate k ' ' ++ [' '])) = x := by
  have h1 : (' ' :: (x ++ List.replicate k ' ' ++ [' '])) =
      [' '] ++ (x ++ (List.replicate k ' ' ++ [' '])) := by simp
  rw [h1, stripL_prepend_allWs (by intro c hc; simp at hc; subst hc; decide),
    stripL_append_allWs (by
      intro c hc
      rcases List.mem_append.mp hc with h2 | h2
      · rw [List.eq_of_mem_replicate h2]; decide
      · simp at h2; subst h2; decide)]
  exact hx

theorem rstripL_cons_of_nonws {c : Char} {Y : List Char} (h : pyIsSpaceChar c = false) :
    rstripL (c :: Y) = c :: rstripL Y := by
  unfold rstripL
  rw [show (c :: Y).reverse = Y.reverse ++ [c] from by simp, List.dropWhile_append]
  split_ifs with he
  · rw [List.isEmpty_iff] at he
    rw [List.dropWhile_cons_of_neg (by simp [h]), he]
    rfl
  · simp

theorem rstripL_eq_nil_iff {Y : List Char} :
    rstripL Y = [] ↔ ∀ c ∈ Y, pyIsSpaceChar c = true := by
  unfold rstripL
  rw [List.reverse_eq_nil_iff, List.dropWhile_eq_nil_iff]
  constructor <;> intro h c hc
  · exact h c (by simpa using hc)
  · exact h c (by simpa using hc)

theorem rstripL_ws_cons_nil {d : Char} {Y : List Char} (hd : pyIsSpaceChar d = true)
    (hY : rstripL Y = []) : rstripL (d :: Y) = [] := by
  rw [rstripL_eq_nil_iff] at hY ⊢
  intro c hc
  rcases List.mem_cons.mp hc with rfl | hc2
  · exact hd
  · exact hY c hc2

theorem rstripL_cons_of_ne {d : Char} {Y : List Char}
    (hY : rstripL Y ≠ []) : rstripL (d :: Y) = d :: rstripL Y := by
  unfold rstripL at hY ⊢
  rw [show (d :: Y).reverse = Y.reverse ++ [d] from by simp, List.dropWhile_append]
  split_ifs with he
  · rw [List.isEmpty_iff] at he
    rw [he] at hY
    simp at hY
  · simp

theorem rstripL_eq_self {Z : List Char}
    (hl : ∀ c, Z.getLast? = some c → pyIsSpaceChar c = false) : rstripL Z = Z := by
  unfold rstripL
  rw [dropWhile_eq_self_of_head Z.reverse (by
    intro c hc
    rw [List.head?_reverse] at hc
    exact hl c hc)]
  exact Z.reverse_reverse

theorem stripL_eq_self {X : List Char}
    (hh : ∀ c, X.head? = some c → pyIsSpaceChar c = false)
    (hl : ∀ c, X.getLast? = some c → pyIsSpaceChar c = false) : pyStripL X = X := by
  rw [pyStripL_as_rstrip, dropWhile_eq_self_of_head X hh]
  exact rstripL_eq_self hl

theorem rstripL_head? {Z : List Char} (h : rstripL Z ≠ []) :
    (rstripL Z).head? = Z.head? := by
  induction Z with
  | nil => exact absurd rfl h
  | cons c Y ih =>
    by_cases hY : rstripL Y = []
    · by_cases hc : pyIsSpaceChar c = true
      · exact absurd (rstripL_ws_cons_nil hc hY) h
      · rw [rstripL_cons_of_nonws (by simpa using hc), hY]
        rfl
    · rw [rstripL_cons_of_ne hY]
      rfl

theorem stripL_head_nonws {X : List Char} :
    ∀ c, (pyStripL X).head? = some c → pyIsSpaceChar c = false := by
  intro c hc
  rw [pyStripL_as_rstrip] at hc
  have hne : rstripL (X.dropWhile pyIsSpaceChar) ≠ [] := by
    intro h0
    rw [h0] at hc
    simp at hc
  rw [rstripL_head? hne] at hc
  exact startsWs_dropWhile X c hc

theorem stripL_getLast_nonws {X : List Char} :
    ∀ c, (pyStripL X).getLast? = some c → pyIsSpaceChar c = false := by
  intro c hc
  rw [pyStripL_eq_rstrip, List.getLast?_reverse] at hc
  exact startsWs_dropWhile _ c hc

theorem stripL_idem (X : List Char) : pyStripL (pyStripL X) = pyStripL X :=
  stripL_eq_self stripL_head_nonws stripL_getLast_nonws

theorem clean_br_strip_id {c : String} (h : _clean_br c = c) : pyStripL c.data = c.data := by
  have h2 : c.data = pyStripL (collapseWsL (replaceBrL c.data)) := by
    conv_lhs => rw [← h]
    rfl
  rw [h2]
  exact stripL_idem _

theorem clean_br_pyStrip_id {c : String} (h : _clean_br c = c) : pyStrip c = c := by
  unfold pyStrip
  rw [clean_br_strip_id h]

theorem clean_br_noNl_self {c : String} (h : _clean_br c = c) : '\n' ∉ c.data := by
  rw [← h]
  exact noNl_clean_br c

theorem pipe_wrap_getLast (inner : List Char) :
    ('|' :: (inner ++ ['|'])).getLast? = some '|' := by
  rw [show ('|' :: (inner ++ ['|'])) = ('|' :: inner) ++ ['|'] from rfl]
  exact List.getLast?_concat _

theorem pipe_wrap_strip_id (inner : List Char) :
    pyStripL ('|' :: (inner ++ ['|'])) = '|' :: (inner ++ ['|']) := by
  apply stripL_eq_self
  · intro c hc
    have hc' : some '|' = some c := hc
    cases hc'
    decide
  · intro c hc
    rw [pipe_wrap_getLast] at hc
    cases hc
    decide

theorem pipe_wrap_table_row (inner : List Char) :
    _is_table_row ⟨'|' :: (inner ++ ['|'])⟩ = true := by
  unfold _is_table_row
  dsimp only
  rw [pipe_wrap_strip_id, pipe_wrap_getLast]
  simp

theorem fmt_row_table_row (widths : List Nat) (cells : List String) :
    _is_table_row (_fmt_row widths cells) = true := by
  unfold _fmt_row
  exact pipe_wrap_table_row _

theorem splitCellsGo_no_pipe :
    ∀ (chunk cur : List Char), '|' ∉ chunk → '\\' ∉ chunk →
      splitCellsGo chunk cur = [⟨pyStripL (cur ++ chunk)⟩]
  | [], cur, _, _ => by
    unfold splitCellsGo
    rw [List.append_nil]
  | [c], cur, hp, hb => by
    unfold splitCellsGo
    rw [if_neg (by intro he; exact hp (by simp [he]))]
  | c :: d :: rest, cur, hp, hb => by
    unfold splitCellsGo
    rw [if_neg (by
      intro he
      exact hb (by simp [he.1]))]
    rw [if_neg (by intro he; exact hp (by simp [he]))]
    rw [splitCellsGo_no_pipe (d :: rest) (cur ++ [c])
      (by intro hm; exact hp (List.mem_cons_of_mem c hm))
      (by intro hm; exact hb (List.mem_cons_of_mem c hm))]
    rw [List.append_assoc]
    rfl

theorem splitCellsGo_pipe_split :
    ∀ (chunk : List Char) (rest cur : List Char), '|' ∉ chunk → '\\' ∉ chunk →
      splitCellsGo (chunk ++ '|' :: rest) cur =
        (⟨pyStripL (cur ++ chunk)⟩ : String) :: splitCellsGo rest []
  | [], rest, cur, _, _ => by
    rw [show ([] : List Char) ++ '|' :: rest = '|' :: rest from rfl]
    cases rest with
    | nil =>
      have hstep : splitCellsGo ['|'] cur = [(⟨pyStripL cur⟩ : String), ⟨pyStripL []⟩] := by
        conv_lhs => unfold splitCellsGo
        rw [if_pos rfl]
      rw [hstep, List.append_nil]
      rfl
    | cons d rest2 =>
      have hstep : splitCellsGo ('|' :: d :: rest2) cur =
          (⟨pyStripL cur⟩ : String) :: splitCellsGo (d :: rest2) [] := by
        conv_lhs => unfold splitCellsGo
        rw [if_neg (fun he => absurd he.1 (by decide)), if_pos rfl]
      rw [hstep, List.append_nil]
  | c :: chunk2, rest, cur, hp, hb => by
    have hc_pipe : c ≠ '|' := fun he => hp (by simp [he])
    have hc_bs : c ≠ '\\' := fun he => hb (by simp [he])
    cases hch : chunk2 ++ '|' :: rest with
    | nil => exact absurd hch (by simp)
    | cons d rest2 =>
      have hstep : splitCellsGo ((c :: chunk2) ++ '|' :: rest) cur =
          splitCellsGo (chunk2 ++ '|' :: rest) (cur ++ [c]) := by
        rw [show (c :: chunk2) ++ '|' :: rest = c :: (chunk2 ++ '|' :: rest) from rfl, hch]
        conv_lhs => unfold splitCellsGo
        rw [if_neg (fun he => hc_bs he.1), if_neg hc_pipe, ← hch]
      rw [hstep, splitCellsGo_pipe_split chunk2 rest (cur ++ [c])
        (fun hm => hp (List.mem_cons_of_mem c hm))
        (fun hm => hb (List.mem_cons_of_mem c hm)), List.append_assoc]
      rfl

theorem splitCells_joinWith :
    ∀ (chunks : List (List Char)), chunks ≠ [] →
      (∀ ch ∈ chunks, '|' ∉ ch ∧ '\\' ∉ ch) →
      splitCellsGo (joinWith ['|'] chunks) [] =
        chunks.map (fun ch => (⟨pyStripL ch⟩ : String))
  | [], h, _ => absurd rfl h
  | [l], _, hch => by
    show splitCellsGo (joinWith ['|'] [l]) [] = _
    rw [show joinWith ['|'] [l] = l from rfl]
    rw [splitCellsGo_no_pipe l [] (hch l (by simp)).1 (hch l (by simp)).2]
    rfl
  | l :: l2 :: ls, _, hch => by
    show splitCellsGo (joinWith ['|'] (l :: l2 :: ls)) [] = _
    rw [show joinWith ['|'] (l :: l2 :: ls) =
      (l ++ ['|']) ++ joinWith ['|'] (l2 :: ls) from rfl, List.append_assoc,
      show (['|'] ++ joinWith ['|'] (l2 :: ls)) = '|' :: joinWith ['|'] (l2 :: ls) from rfl]
    rw [splitCellsGo_pipe_split l _ [] (hch l (by simp)).1 (hch l (by simp)).2]
    rw [splitCells_joinWith (l2 :: ls) (by simp)
      (fun ch hm => hch ch (List.mem_cons_of_mem l hm))]
    rfl

theorem split_row_wrap (inner : List Char) :
    _split_row ⟨'|' :: (inner ++ ['|'])⟩ = splitCellsGo inner [] := by
  unfold _split_row
  dsimp only
  rw [pipe_wrap_strip_id]
  show splitCellsGo (if (inner ++ ['|']).getLast? = some '|' then (inner ++ ['|']).dropLast
    else (inner ++ ['|'])) [] = splitCellsGo inner []
  rw [List.getLast?_concat, if_pos rfl, List.dropLast_concat]

theorem range_map_getD {α : Type} (l : List α) (d : α) :
    (List.range l.length).map (fun i => l.getD i d) = l := by
  apply List.ext_getElem (by simp)
  intro i h1 h2
  rw [List.getElem_map, List.getElem_range, List.getD_eq_getElem _ _ h2]

theorem fmt_cell_not_mem (w : Nat) (cell : String) (x : Char) (hx : x ≠ ' ')
    (h : x ∉ cell.data) : x ∉ _fmt_cell w cell := by
  unfold _fmt_cell
  intro hm
  rcases List.mem_cons.mp hm with he | hm2
  · exact hx he
  rcases List.mem_append.mp hm2 with hm3 | he
  · rcases List.mem_append.mp hm3 with hm4 | he
    · exact h hm4
    · exact hx (List.eq_of_mem_replicate he)
  · exact hx (List.mem_singleton.mp he)

theorem stripL_fmt_cell (w : Nat) (cell : String) (h : pyStripL cell.data = cell.data) :
    pyStripL (_fmt_cell w cell) = cell.data := by
  unfold _fmt_cell
  exact stripL_padded _ h

theorem fmt_row_split (widths : List Nat) (cells : List String) (hne : cells ≠ [])
    (hcells : ∀ c ∈ cells, pyStripL c.data = c.data ∧ '|' ∉ c.data ∧ '\\' ∉ c.data) :
    _split_row (_fmt_row widths cells) = cells := by
  have hmem : ∀ ci, ci < cells.length → cells.getD ci "" ∈ cells := by
    intro ci hci
    rw [List.getD_eq_getElem _ _ hci]
    exact List.getElem_mem hci
  unfold _fmt_row
  rw [split_row_wrap, splitCells_joinWith _
    (by simpa [List.length_eq_zero] using hne)
    (by
      intro ch hch
      obtain ⟨ci, hci, rfl⟩ := List.mem_map.mp hch
      rw [List.mem_range] at hci
      exact ⟨fmt_cell_not_mem _ _ '|' (by decide) (hcells _ (hmem ci hci)).2.1,
        fmt_cell_not_mem _ _ '\\' (by decide) (hcells _ (hmem ci hci)).2.2⟩)]
  rw [List.map_map]
  apply List.ext_getElem (by simp)
  intro i h1 h2
  have hi : i < cells.length := by simpa using h1
  rw [List.getElem_map, List.getElem_range]
  show (⟨pyStripL (_fmt_cell (if i < widths.length then widths.getD i 0 else 3)
    (cells.getD i ""))⟩ : String) = cells[i]
  rw [stripL_fmt_cell _ _ (hcells _ (hmem i hi)).1, List.getD_eq_getElem _ _ hi]

theorem stripL_replicate_dash (k : Nat) :
    pyStripL (List.replicate k '-') = List.replicate k '-' := by
  cases k with
  | zero => rfl
  | succ k2 =>
    apply stripL_eq_self
    · intro c hc
      rw [List.replicate_succ] at hc
      have hc' : some '-' = some c := hc
      cases hc'
      decide
    · intro c hc
      rw [List.replicate_succ', List.getLast?_concat] at hc
      cases hc
      decide

theorem takeWhile_replicate_dash (k : Nat) :
    (List.replicate k '-').takeWhile (fun c => c = '-') = List.replicate k '-' := by
  induction k with
  | zero => rfl
  | succ n ih => rw [List.replicate_succ, List.takeWhile_cons_of_pos (by decide), ih]

theorem dropWhile_replicate_dash (k : Nat) :
    (List.replicate k '-').dropWhile (fun c => c = '-') = [] := by
  induction k with
  | zero => rfl
  | succ n ih => rw [List.replicate_succ, List.dropWhile_cons_of_pos (by decide), ih]

theorem sep_cell_re (k : Nat) (hk : 0 < k) :
    _SEPARATOR_CELL_RE ⟨List.replicate k '-'⟩ = true := by
  obtain ⟨k2, rfl⟩ : ∃ k2, k = k2 + 1 := ⟨k - 1, by omega⟩
  unfold _SEPARATOR_CELL_RE
  dsimp only
  rw [List.replicate_succ]
  show (decide (1 ≤ (('-' :: List.replicate k2 '-').takeWhile (fun c => c = '-')).length) &&
    ((('-' :: List.replicate k2 '-').dropWhile (fun c => c = '-')).isEmpty ||
      ('-' :: List.replicate k2 '-').dropWhile (fun c => c = '-') == [':'])) = true
  rw [show ('-' :: List.replicate k2 '-') = List.replicate (k2 + 1) '-' from
    (List.replicate_succ '-' k2).symm]
  rw [takeWhile_replicate_dash, dropWhile_replicate_dash]
  simp

theorem sep_row_split (W : List Nat) (hW : W ≠ []) :
    _split_row (rebuildSep W) = W.map (fun w => (⟨List.replicate (w + 2) '-'⟩ : String)) := by
  unfold rebuildSep
  rw [split_row_wrap, splitCells_joinWith _
    (by simpa [List.length_eq_zero] using hW)
    (by
      intro ch hch
      obtain ⟨w, hw, rfl⟩ := List.mem_map.mp hch
      exact ⟨fun hm => absurd (List.eq_of_mem_replicate hm) (by decide),
        fun hm => absurd (List.eq_of_mem_replicate hm) (by decide)⟩)]
  rw [List.map_map]
  apply List.map_congr_left
  intro w hw
  show (⟨pyStripL (List.replicate (w + 2) '-')⟩ : String) = _
  rw [stripL_replicate_dash]

theorem pyStrip_fmt_row (widths : List Nat) (cells : List String) :
    pyStrip (_fmt_row widths cells) = _fmt_row widths cells := by
  unfold pyStrip _fmt_row
  rw [show (String.mk ('|' :: (joinWith ['|']
      ((List.range cells.length).map (fun ci =>
        let w := if ci < widths.length then widths.getD ci 0 else 3
        _fmt_cell w (cells.getD ci ""))) ++ ['|']))).data = '|' :: (joinWith ['|']
      ((List.range cells.length).map (fun ci =>
        let w := if ci < widths.length then widths.getD ci 0 else 3
        _fmt_cell w (cells.getD ci ""))) ++ ['|']) from rfl]
  rw [pipe_wrap_strip_id]

theorem pyStrip_rebuildSep (W : List Nat) :
    pyStrip (rebuildSep W) = rebuildSep W := by
  unfold pyStrip rebuildSep
  rw [show (String.mk ('|' :: (joinWith ['|']
      (W.map (fun w => List.replicate (w + 2) '-')) ++ ['|']))).data = '|' :: (joinWith ['|']
      (W.map (fun w => List.replicate (w + 2) '-')) ++ ['|']) from rfl]
  rw [pipe_wrap_strip_id]

theorem rebuildSep_is_separator (W : List Nat) (hW : W ≠ []) :
    _is_separator_line (rebuildSep W) = true := by
  unfold _is_separator_line
  dsimp only
  rw [pyStrip_rebuildSep, sep_row_split W hW]
  rw [if_neg (by
    unfold rebuildSep
    intro h
    exact Bool.noConfusion h)]
  rw [if_neg (by
    rw [List.length_map]
    intro h
    exact absurd (List.length_eq_zero.mp (by omega)) hW)]
  rw [List.all_eq_true]
  intro cell hcell
  obtain ⟨w, hw, rfl⟩ := List.mem_map.mp hcell
  have hstrip : pyStrip (⟨List.replicate (w + 2) '-'⟩ : String) = ⟨List.replicate (w + 2) '-'⟩ := by
    unfold pyStrip
    rw [show (String.mk (List.replicate (w + 2) '-')).data = List.replicate (w + 2) '-' from rfl]
    rw [stripL_replicate_dash]
  rw [hstrip]
  rw [if_neg (by
    intro h
    have h2 : List.replicate (w + 2) '-' = [] := congrArg String.data h
    simp at h2)]
  exact sep_cell_re (w + 2) (by omega)

theorem fmt_row_not_separator (widths : List Nat) (r : List String)
    (hr : ∀ c ∈ r, pyStripL c.data = c.data ∧ '|' ∉ c.data ∧ '\\' ∉ c.data)
    (hex : ∃ c ∈ r, pyStrip c ≠ "" ∧ _SEPARATOR_CELL_RE (pyStrip c) = false) :
    _is_separator_line (_fmt_row widths r) = false := by
  obtain ⟨c0, hc0, hne0, hre0⟩ := hex
  have hrne : r ≠ [] := by
    intro h
    subst h
    exact absurd hc0 (List.not_mem_nil c0)
  unfold _is_separator_line
  dsimp only
  rw [pyStrip_fmt_row, fmt_row_split widths r hrne hr]
  rw [if_neg (by
    unfold _fmt_row
    intro h
    exact Bool.noConfusion h)]
  rw [if_neg (by
    intro h
    exact absurd (List.length_eq_zero.mp (by omega)) hrne)]
  rw [List.all_eq_false]
  refine ⟨c0, hc0, ?_⟩
  rw [if_neg hne0, hre0]
  exact Bool.false_ne_true

theorem map_clean_br_id {l : List String} (h : ∀ c ∈ l, _clean_br c = c) :
    l.map _clean_br = l := by
  rw [List.map_congr_left h]
  exact List.map_id l

theorem map_map_clean_br_id {R : List (List String)}
    (h : ∀ r ∈ R, ∀ c ∈ r, _clean_br c = c) :
    R.map (fun row => row.map _clean_br) = R := by
  rw [List.map_congr_left (fun r hr => map_clean_br_id (h r hr))]
  exact List.map_id R

theorem clean_header_cells_id (t : ParsedTable)
    (hhc : ∀ c ∈ t.header_cells, _clean_br c = c)
    (hgen : ∀ h ∈ t.header_cells, _GENERIC_HEADER_RE (pyStrip h) = false) :
    clean_header_cells t = t.header_cells := by
  unfold clean_header_cells
  dsimp only
  rw [map_clean_br_id hhc]
  apply List.ext_getElem (by simp)
  intro i h1 h2
  have hmem : t.header_cells.getD i "" ∈ t.header_cells := by
    rw [List.getD_eq_getElem _ _ h2]
    exact List.getElem_mem h2
  rw [List.getElem_map, List.getElem_range]
  rw [hgen _ hmem, if_neg Bool.false_ne_true, List.getD_eq_getElem _ _ h2]

theorem clean_rows_id (t : ParsedTable)
    (hrc : ∀ r ∈ t.data_rows, ∀ c ∈ r, _clean_br c = c)
    (hhc : ∀ c ∈ t.header_cells, _clean_br c = c)
    (hgen : ∀ h ∈ t.header_cells, _GENERIC_HEADER_RE (pyStrip h) = false)
    (hred : _is_redundant_subheader t.data_rows.headI t.header_cells = false) :
    clean_rows_after_subheader t = t.data_rows := by
  have hmaps : t.data_rows.map (fun row => row.map _clean_br) = t.data_rows :=
    map_map_clean_br_id hrc
  have hred2 : _is_redundant_subheader
      ((t.data_rows.map (fun row => row.map _clean_br)).headI) (clean_header_cells t) = false := by
    rw [hmaps, clean_header_cells_id t hhc hgen]
    exact hred
  rw [clean_rows_after_subheader_of_not_red t hred2]
  exact hmaps

theorem clean_keep_cols_full (t : ParsedTable)
    (hhc : ∀ c ∈ t.header_cells, _clean_br c = c)
    (hgen : ∀ h ∈ t.header_cells, _GENERIC_HEADER_RE (pyStrip h) = false) :
    clean_keep_cols t = List.range t.header_cells.length := by
  unfold clean_keep_cols
  dsimp only
  rw [clean_header_cells_id t hhc hgen]
  apply List.filter_eq_self.mpr
  intro ci hci
  rw [List.mem_range] at hci
  have hmem : t.header_cells.getD ci "" ∈ t.header_cells := by
    rw [List.getD_eq_getElem _ _ hci]
    exact List.getElem_mem hci
  rw [if_pos hci, hgen _ hmem]
  simp

theorem clean_table_header_rows_id (t : ParsedTable)
    (hhc : ∀ c ∈ t.header_cells, _clean_br c = c)
    (hrc : ∀ r ∈ t.data_rows, ∀ c ∈ r, _clean_br c = c)
    (hgen : ∀ h ∈ t.header_cells, _GENERIC_HEADER_RE (pyStrip h) = false)
    (hred : _is_redundant_subheader t.data_rows.headI t.header_cells = false) :
    clean_table_header_rows t = (t.header_cells, t.data_rows) := by
  unfold clean_table_header_rows
  dsimp only
  rw [clean_header_cells_id t hhc hgen, clean_rows_id t hrc hhc hgen hred,
    clean_keep_cols_full t hhc hgen]
  rw [if_neg (by
    intro hcond
    have := hcond.2
    rw [List.length_range] at this
    exact absurd this (by omega))]

theorem normaliseRows_eq_self (c : Nat) (rows : List (List String))
    (h : ∀ r ∈ rows, r.length = c) :
    normaliseRows c rows = rows := by
  unfold normaliseRows
  apply List.ext_getElem (by simp)
  intro i h1 h2
  rw [List.getElem_map]
  have hmem : rows[i] ∈ rows := List.getElem_mem h2
  rw [if_neg (by rw [h _ hmem]; omega)]
  exact List.take_of_length_le (le_of_eq (h _ hmem))

theorem clean_table_eq_rebuild (t : ParsedTable)
    (hhc : ∀ c ∈ t.header_cells, _clean_br c = c)
    (hrc : ∀ r ∈ t.data_rows, ∀ c ∈ r, _clean_br c = c)
    (hgen : ∀ h ∈ t.header_cells, _GENERIC_HEADER_RE (pyStrip h) = false)
    (hred : _is_redundant_subheader t.data_rows.headI t.header_cells = false)
    (hH : t.header_cells ≠ [])
    (hlen : ∀ r ∈ t.data_rows, r.length = t.header_cells.length) :
    clean_table t = pyJoinNl
      ([_fmt_row (rebuildWidths t.header_cells t.data_rows) t.header_cells,
        rebuildSep (rebuildWidths t.header_cells t.data_rows)] ++
        t.data_rows.map (_fmt_row (rebuildWidths t.header_cells t.data_rows))) := by
  unfold clean_table
  rw [clean_table_header_rows_id t hhc hrc hgen hred]
  show _rebuild_table t.header_cells t.data_rows = _
  unfold _rebuild_table
  rw [if_neg (by simpa [List.isEmpty_iff] using hH)]
  dsimp only
  rw [normaliseRows_eq_self _ _ hlen]

theorem _data_end_go_full (lines : List String) :
    ∀ (fuel j : Nat), lines.length ≤ j + fuel →
      (∀ k, j ≤ k → k < lines.length → _is_table_row (lines.getD k "") = true ∧
        _is_separator_line (lines.getD k "") = false) →
      _data_end_go lines fuel j = max j lines.length
  | 0, j, hf, _ => by
    unfold _data_end_go
    omega
  | fuel + 1, j, hf, hall => by
    unfold _data_end_go
    by_cases hj : j < lines.length
    · rw [if_pos ⟨hj, (hall j (le_refl j) hj).1, (hall j (le_refl j) hj).2⟩]
      rw [_data_end_go_full lines fuel (j + 1) (by omega)
        (fun k hk1 hk2 => hall k (by omega) hk2)]
      omega
    · rw [if_neg (by intro hc; exact hj hc.1)]
      omega

theorem _data_end_full (lines : List String) (j : Nat) (hj : j ≤ lines.length)
    (hall : ∀ k, j ≤ k → k < lines.length → _is_table_row (lines.getD k "") = true ∧
      _is_separator_line (lines.getD k "") = false) :
    _data_end lines j = lines.length := by
  unfold _data_end
  rw [_data_end_go_full lines _ j (by omega) hall]
  omega

theorem find_tables_aux_all_used (lines : List String) :
    ∀ (fuel i : Nat) (used : List Nat), (∀ k, k < lines.length → k ∈ used) →
      find_tables_aux lines fuel i used = []
  | 0, _, _, _ => rfl
  | fuel + 1, i, used, h => by
    unfold find_tables_aux
    by_cases hi : i < lines.length
    · rw [if_pos hi, if_pos (h i hi)]
      exact find_tables_aux_all_used lines fuel (i + 1) used h
    · rw [if_neg hi]

theorem find_tables_aux_step0 (lines : List String) (fuel : Nat) (used : List Nat)
    (h0 : 0 < lines.length) (hu : 0 ∉ used) :
    find_tables_aux lines (fuel + 1) 0 used = find_tables_aux lines fuel 1 used := by
  conv_lhs => unfold find_tables_aux
  rw [if_pos h0, if_neg hu]
  by_cases hsep : _is_separator_line (lines.getD 0 "") = false
  · rw [if_pos hsep]
  · rw [if_neg hsep, if_pos rfl]

theorem find_tables_aux_hit (lines : List String) (fuel i : Nat) (used : List Nat)
    (hi : i < lines.length) (hu : i ∉ used) (hi0 : i ≠ 0)
    (hsep : _is_separator_line (lines.getD i "") = true)
    (hrow : _is_table_row (lines.getD (i - 1) "") = true)
    (hcols : ¬ 1 < (((_split_row (lines.getD (i - 1) "")).length : ℤ) -
      ((_split_row (lines.getD i "")).length : ℤ)).natAbs) :
    find_tables_aux lines (fuel + 1) i used =
      { header_cells := _split_row (lines.getD (i - 1) ""),
        data_rows := (List.range (_data_end lines (i + 1) - (i + 1))).map
          (fun k => _split_row (lines.getD (i + 1 + k) "")),
        start_line := i - 1, end_line := _data_end lines (i + 1) - 1 } ::
        find_tables_aux lines fuel (i + 1)
          (used ++ (List.range (_data_end lines (i + 1) - 1 + 1 - (i - 1))).map
            (fun k => i - 1 + k)) := by
  conv_lhs => unfold find_tables_aux
  rw [if_pos hi, if_neg hu, if_neg (by rw [hsep]; decide), if_neg hi0,
    if_neg (by rw [hrow]; decide)]
  dsimp only
  rw [if_neg hcols]

theorem find_tables_one_table (L0 L1 : String) (rest : List String)
    (hrow0 : _is_table_row L0 = true)
    (hsep1 : _is_separator_line L1 = true)
    (hcols : ¬ 1 < (((_split_row L0).length : ℤ) - ((_split_row L1).length : ℤ)).natAbs)
    (hrest : ∀ x ∈ rest, _is_table_row x = true ∧ _is_separator_line x = false) :
    find_tables_aux (L0 :: L1 :: rest) (rest.length + 2) 0 [] =
      [{ header_cells := _split_row L0, data_rows := rest.map _split_row,
         start_line := 0, end_line := rest.length + 1 }] := by
  have hlenL : (L0 :: L1 :: rest).length = rest.length + 2 := by simp
  have hgetk : ∀ k, (L0 :: L1 :: rest).getD (1 + 1 + k) "" = rest.getD k "" := by
    intro k
    rw [show 1 + 1 + k = k + 1 + 1 from by omega, List.getD_cons_succ, List.getD_cons_succ]
  have hmemk : ∀ k, k < rest.length → rest.getD k "" ∈ rest := by
    intro k hk
    rw [List.getD_eq_getElem _ _ hk]
    exact List.getElem_mem hk
  have hde : _data_end (L0 :: L1 :: rest) (1 + 1) = rest.length + 2 := by
    have hfull := _data_end_full (L0 :: L1 :: rest) (1 + 1) (by rw [hlenL]; omega) (by
      intro k h2k hkl
      rw [hlenL] at hkl
      obtain ⟨k2, rfl⟩ : ∃ k2, k = 1 + 1 + k2 := ⟨k - 2, by omega⟩
      rw [hgetk k2]
      exact hrest _ (hmemk k2 (by omega)))
    rw [hlenL] at hfull
    exact hfull
  rw [show rest.length + 2 = rest.length + 1 + 1 from rfl]
  rw [find_tables_aux_step0 _ (rest.length + 1) [] (by simp) (List.not_mem_nil 0)]
  rw [find_tables_aux_hit (L0 :: L1 :: rest) rest.length 1 [] (by rw [hlenL]; omega)
    (List.not_mem_nil 1) one_ne_zero hsep1 hrow0 hcols]
  rw [find_tables_aux_all_used _ rest.length (1 + 1) _ (by
    intro k hk
    rw [List.nil_append]
    refine List.mem_map.mpr ⟨k, List.mem_range.mpr ?_, by omega⟩
    rw [hde]
    rw [hlenL] at hk
    omega)]
  refine congrArg (fun x => [x]) ?_
  have hd : (List.range (_data_end (L0 :: L1 :: rest) (1 + 1) - (1 + 1))).map
      (fun k => _split_row ((L0 :: L1 :: rest).getD (1 + 1 + k) "")) =
      rest.map _split_row := by
    rw [hde, show rest.length + 2 - (1 + 1) = rest.length from by omega]
    apply List.ext_getElem (by simp)
    intro i h1 h2
    have hi : i < rest.length := by simpa using h2
    rw [List.getElem_map, List.getElem_map, List.getElem_range, hgetk i,
      List.getD_eq_getElem _ _ hi]
  rw [hd, hde]
  rfl

/-- C6 (amended): `clean_table` is idempotent on fully clean tables.  The
claim's hypotheses (no `<br>` tag, no generic header, no redundant first
row) are not sufficient — an unescaped pipe or a ragged, whitespace-padded
or separator-shaped cell breaks the round trip — but they become sufficient
once every cell is additionally required to be `_clean_br`-normalised and
free of `|` and `\` characters, every row to have exactly the header's
width, and every row to hold a non-empty non-separator cell: then parsing
the output of `clean_table` back yields exactly one table with the same
header and data cells, and cleaning that parsed table returns a string
identical to the first output. -/
theorem clean_table_idempotent (t : ParsedTable)
    (hH : t.header_cells ≠ [])
    (hhc : ∀ c ∈ t.header_cells, _clean_br c = c ∧ '|' ∉ c.data ∧ '\\' ∉ c.data)
    (hrc : ∀ r ∈ t.data_rows, ∀ c ∈ r, _clean_br c = c ∧ '|' ∉ c.data ∧ '\\' ∉ c.data)
    (hgen : ∀ h ∈ t.header_cells, _GENERIC_HEADER_RE (pyStrip h) = false)
    (hred : _is_redundant_subheader t.data_rows.headI t.header_cells = false)
    (hlen : ∀ r ∈ t.data_rows, r.length = t.header_cells.length)
    (hrow : ∀ r ∈ t.data_rows, ∃ c ∈ r, pyStrip c ≠ "" ∧ _SEPARATOR_CELL_RE (pyStrip c) = false) :
    find_tables (clean_table t) =
      [⟨t.header_cells, t.data_rows, 0, t.data_rows.length + 1⟩] ∧
    clean_table ⟨t.header_cells, t.data_rows, 0, t.data_rows.length + 1⟩ = clean_table t := by
  obtain ⟨H, R, sl, el⟩ := t
  dsimp only at hH hhc hrc hgen hred hlen hrow ⊢
  refine ⟨?_, rfl⟩
  have hhc1 : ∀ c ∈ H, _clean_br c = c := fun c hc => (hhc c hc).1
  have hrc1 : ∀ r ∈ R, ∀ c ∈ r, _clean_br c = c := fun r hr c hc => (hrc r hr c hc).1
  have hcellsH : ∀ c ∈ H, pyStripL c.data = c.data ∧ '|' ∉ c.data ∧ '\\' ∉ c.data :=
    fun c hc => ⟨clean_br_strip_id (hhc c hc).1, (hhc c hc).2.1, (hhc c hc).2.2⟩
  have hcellsR : ∀ r ∈ R, ∀ c ∈ r, pyStripL c.data = c.data ∧ '|' ∉ c.data ∧ '\\' ∉ c.data :=
    fun r hr c hc =>
      ⟨clean_br_strip_id (hrc r hr c hc).1, (hrc r hr c hc).2.1, (hrc r hr c hc).2.2⟩
  have hWne : rebuildWidths H R ≠ [] := by
    intro hnil
    have hl := rebuildWidths_length H R hlen
    rw [hnil] at hl
    exact hH (List.length_eq_zero.mp hl.symm)
  have hRne : ∀ r ∈ R, r ≠ [] := by
    intro r hr hnil
    have h0 := hlen r hr
    rw [hnil] at h0
    exact hH (List.length_eq_zero.mp h0.symm)
  have hclean : clean_table ⟨H, R, sl, el⟩ = pyJoinNl
      ([_fmt_row (rebuildWidths H R) H, rebuildSep (rebuildWidths H R)] ++
        R.map (_fmt_row (rebuildWidths H R))) :=
    clean_table_eq_rebuild ⟨H, R, sl, el⟩ hhc1 hrc1 hgen hred hH hlen
  have hsplit : pySplitLines (clean_table ⟨H, R, sl, el⟩) =
      _fmt_row (rebuildWidths H R) H :: rebuildSep (rebuildWidths H R) ::
        R.map (_fmt_row (rebuildWidths H R)) := by
    rw [hclean]
    rw [pySplitLines_pyJoinNl _ (by simp) (by
      intro x hx
      rcases List.mem_append.mp hx with h1 | h1
      · simp only [List.mem_cons, List.not_mem_nil, or_false] at h1
        rcases h1 with rfl | rfl
        · exact noNl_fmt_row _ _ (fun c hc => clean_br_noNl_self (hhc1 c hc))
        · exact noNl_rebuildSep _
      · obtain ⟨r, hr, rfl⟩ := List.mem_map.mp h1
        exact noNl_fmt_row _ _ (fun c hc => clean_br_noNl_self (hrc1 r hr c hc)))]
    rfl
  have hsplitH : _split_row (_fmt_row (rebuildWidths H R) H) = H :=
    fmt_row_split _ H hH hcellsH
  have hone := find_tables_one_table (_fmt_row (rebuildWidths H R) H)
    (rebuildSep (rebuildWidths H R)) (R.map (_fmt_row (rebuildWidths H R)))
    (fmt_row_table_row _ _)
    (rebuildSep_is_separator _ hWne)
    (by
      rw [hsplitH, sep_row_split _ hWne, List.length_map, rebuildWidths_length H R hlen]
      omega)
    (by
      intro x hx
      obtain ⟨r, hr, rfl⟩ := List.mem_map.mp hx
      exact ⟨fmt_row_table_row _ _,
        fmt_row_not_separator _ r (hcellsR r hr) (hrow r hr)⟩)
  rw [List.length_map, hsplitH] at hone
  have hmaps : (R.map (_fmt_row (rebuildWidths H R))).map _split_row = R := by
    rw [List.map_map]
    apply List.ext_getElem (by simp)
    intro i h1 h2
    rw [List.getElem_map]
    have hi : R[i] ∈ R := List.getElem_mem h2
    show _split_row (_fmt_row (rebuildWidths H R) R[i]) = R[i]
    exact fmt_row_split _ R[i] (hRne R[i] hi) (hcellsR R[i] hi)
  rw [hmaps] at hone
  have hfind : find_tables (clean_table ⟨H, R, sl, el⟩) =
      find_tables_aux (_fmt_row (rebuildWidths H R) H :: rebuildSep (rebuildWidths H R) ::
          R.map (_fmt_row (rebuildWidths H R)))
        (_fmt_row (rebuildWidths H R) H :: rebuildSep (rebuildWidths H R) ::
          R.map (_fmt_row (rebuildWidths H R))).length 0 [] := by
    unfold find_tables
    rw [hsplit]
  rw [hfind, show (_fmt_row (rebuildWidths H R) H :: rebuildSep (rebuildWidths H R) ::
      R.map (_fmt_row (rebuildWidths H R))).length = R.length + 2 from by simp]
  exact hone

/-- C6 witness: the idempotence theorem instantiated on the one-column
table with header cell `"Name"` and single data cell `"Alice"`. -/
theorem clean_table_idempotent_witness :
    ((⟨["Name"], [["Alice"]], 0, 2⟩ : ParsedTable).header_cells ≠ [] ∧
     _is_redundant_subheader (⟨["Name"], [["Alice"]], 0, 2⟩ : ParsedTable).data_rows.headI
       (⟨["Name"], [["Alice"]], 0, 2⟩ : ParsedTable).header_cells = false) ∧
    find_tables (clean_table ⟨["Name"], [["Alice"]], 0, 2⟩) =
      [⟨["Name"], [["Alice"]], 0, 2⟩] ∧
    clean_table ⟨["Name"], [["Alice"]], 0, 2⟩ = clean_table ⟨["Name"], [["Alice"]], 0, 2⟩ :=
  ⟨⟨by decide, by rw [_is_redundant_subheader_eq]; decide⟩,
    clean_table_idempotent ⟨["Name"], [["Alice"]], 0, 2⟩ (by decide) (by decide) (by decide)
      (by decide) (by rw [_is_redundant_subheader_eq]; decide) (by decide) (by decide)⟩
